import Mathlib

/-!
Verification of the lunar calendar engine of `server/src/utils/lunar.js`.

The JavaScript module is embedded shallowly: the packed year table, the
bit-field decoders (`leapMonth`, `leapDays`, `monthDays`, `lYearDays`),
the two conversion functions `solarToLunar` and `getLunarMonthSolarRange`,
and the solar-term resolver `getCurrentJieQiYearMonth` are translated into
executable Lean definitions.  JavaScript `Date.UTC` day arithmetic is
modelled by an explicit proleptic Gregorian day count (`dayNumberN`) and
timestamp-to-civil conversion by iterated calendar succession (`addDays`).
Out-of-range table reads (`lunarInfo[i]` giving `undefined`, which JS
bitwise operators coerce to `0`) are modelled by returning `0`.
-/

namespace Lunar

set_option maxRecDepth 100000

/-- The packed lunar year data table for 1900–2100 (`lunarInfo` in lunar.js). -/
def lunarInfo : List Nat := [
    0x04bd8, 0x04ae0, 0x0a570, 0x054d5, 0x0d260, 0x0d950, 0x16554, 0x056a0, 0x09ad0, 0x055d2,
    0x04ae0, 0x0a5b6, 0x0a4d0, 0x0d250, 0x1d255, 0x0b540, 0x0d6a0, 0x0ada2, 0x095b0, 0x14977,
    0x04970, 0x0a4b0, 0x0b4b5, 0x06a50, 0x06d40, 0x1ab54, 0x02b60, 0x09570, 0x052f2, 0x04970,
    0x06566, 0x0d4a0, 0x0ea50, 0x06e95, 0x05ad0, 0x02b60, 0x186e3, 0x092e0, 0x1c8d7, 0x0c950,
    0x0d4a0, 0x1d8a6, 0x0b550, 0x056a0, 0x1a5b4, 0x025d0, 0x092d0, 0x0d2b2, 0x0a950, 0x0b557,
    0x06ca0, 0x0b550, 0x15355, 0x04da0, 0x0a5b0, 0x14573, 0x052b0, 0x0a9a8, 0x0e950, 0x06aa0,
    0x0aea6, 0x0ab50, 0x04b60, 0x0aae4, 0x0a570, 0x05260, 0x0f263, 0x0d950, 0x05b57, 0x056a0,
    0x096d0, 0x04dd5, 0x04ad0, 0x0a4d0, 0x0d4d4, 0x0d250, 0x0d558, 0x0b540, 0x0b6a0, 0x195a6,
    0x095b0, 0x049b0, 0x0a974, 0x0a4b0, 0x0b27a, 0x06a50, 0x06d40, 0x0af46, 0x0ab60, 0x09570,
    0x04af5, 0x04970, 0x064b0, 0x074a3, 0x0ea50, 0x06b58, 0x055c0, 0x0ab60, 0x096d5, 0x092e0,
    0x0c960, 0x0d954, 0x0d4a0, 0x0da50, 0x07552, 0x056a0, 0x0abb7, 0x025d0, 0x092d0, 0x0cab5,
    0x0a950, 0x0b4a0, 0x0baa4, 0x0ad50, 0x055d9, 0x04ba0, 0x0a5b0, 0x15176, 0x052b0, 0x0a930,
    0x07954, 0x06aa0, 0x0ad50, 0x05b52, 0x04b60, 0x0a6e6, 0x0a4e0, 0x0d260, 0x0ea65, 0x0d530,
    0x05aa0, 0x076a3, 0x096d0, 0x04afb, 0x04ad0, 0x0a4d0, 0x1d0b6, 0x0d250, 0x0d520, 0x0dd45,
    0x0b5a0, 0x056d0, 0x055b2, 0x049b0, 0x0a577, 0x0a4b0, 0x0aa50, 0x1b255, 0x06d20, 0x0ada0,
    0x14b63, 0x09370, 0x049f8, 0x04970, 0x064b0, 0x168a6, 0x0ea50, 0x06b20, 0x1a6c4, 0x0aae0,
    0x0a2e0, 0x0d2e3, 0x0c960, 0x0d557, 0x0d4a0, 0x0da50, 0x05d55, 0x056a0, 0x0a6d0, 0x055d4,
    0x052d0, 0x0a9b8, 0x0a950, 0x0b4a0, 0x0b6a6, 0x0ad50, 0x055a0, 0x0aba4, 0x0a5b0, 0x052b0,
    0x0b273, 0x06930, 0x07337, 0x06aa0, 0x0ad50, 0x14b55, 0x04b60, 0x0a570, 0x054e4, 0x0d160,
    0x0e968, 0x0d520, 0x0daa0, 0x16aa6, 0x056d0, 0x04ae0, 0x0a9d4, 0x0a2d0, 0x0d150, 0x0f252,
    0x0d520]

def Gan : List String := ["甲", "乙", "丙", "丁", "戊", "己", "庚", "辛", "壬", "癸"]

def Zhi : List String := ["子", "丑", "寅", "卯", "辰", "巳", "午", "未", "申", "酉", "戌", "亥"]

def Animals : List String := ["鼠", "牛", "虎", "兔", "龙", "蛇", "马", "羊", "猴", "鸡", "狗", "猪"]

def lunarMonths : List String := ["正", "二", "三", "四", "五", "六", "七", "八", "九", "十", "冬", "腊"]

def lunarDays : List String := ["初一", "初二", "初三", "初四", "初五", "初六", "初七", "初八", "初九", "初十",
    "十一", "十二", "十三", "十四", "十五", "十六", "十七", "十八", "十九", "二十",
    "廿一", "廿二", "廿三", "廿四", "廿五", "廿六", "廿七", "廿八", "廿九", "三十"]

/-- `lunarInfo[y - 1900]` as read through a JS bitwise operator: an
out-of-range read yields `undefined`, which the bitwise operators of the
module coerce to `0`. -/
def lunarInfoAt (y : Nat) : Nat :=
  if 1900 ≤ y ∧ y ≤ 2100 then lunarInfo.getD (y - 1900) 0 else 0

/-- `leapMonth(y)` — the leap month index of year `y` (0 when none). -/
def leapMonth (y : Nat) : Nat := lunarInfoAt y &&& 0xf

/-- `leapDays(y)` — day count of the leap month of year `y` (0 when none). -/
def leapDays (y : Nat) : Nat :=
  if leapMonth y ≠ 0 then (if lunarInfoAt y &&& 0x10000 ≠ 0 then 30 else 29) else 0

/-- `monthDays(y, m)` — day count of ordinary lunar month `m` of year `y`. -/
def monthDays (y m : Nat) : Nat :=
  if lunarInfoAt y &&& (0x10000 >>> m) ≠ 0 then 30 else 29

/-- The bit-counting loop of `lYearDays` with an explicit iteration budget
(the loop from `0x8000` runs 12 times before `i` reaches `0x8`). -/
def bitSumGo (info : Nat) : Nat → Nat → Nat
  | 0, _ => 0
  | fuel + 1, i =>
      if 8 < i then (if info &&& i ≠ 0 then 1 else 0) + bitSumGo info fuel (i >>> 1)
      else 0

/-- The bit-counting loop of `lYearDays`: `for (i = 0x8000; i > 0x8; i >>= 1)`. -/
def bitSum (info : Nat) (i : Nat) : Nat := bitSumGo info 16 i

/-- `lYearDays(y)` — total day count of lunar year `y`. -/
def lYearDays (y : Nat) : Nat := 348 + bitSum (lunarInfoAt y) 0x8000 + leapDays y

/-- A Gregorian civil date (as produced by the JS `Date` UTC accessors). -/
structure GDate where
  year : Nat
  month : Nat
  day : Nat
deriving DecidableEq, Repr

/-- Gregorian leap year test. -/
def gLeap (y : Nat) : Bool := (y % 4 == 0 && y % 100 != 0) || y % 400 == 0

/-- Length of Gregorian month `m` of year `y`. -/
def gDaysInMonth (y m : Nat) : Nat :=
  match m with
  | 1 => 31
  | 2 => if gLeap y then 29 else 28
  | 3 => 31
  | 4 => 30
  | 5 => 31
  | 6 => 30
  | 7 => 31
  | 8 => 31
  | 9 => 30
  | 10 => 31
  | 11 => 30
  | 12 => 31
  | _ => 0

/-- A well-formed Gregorian calendar date. -/
def validG (y m d : Nat) : Prop :=
  1 ≤ m ∧ m ≤ 12 ∧ 1 ≤ d ∧ d ≤ gDaysInMonth y m

instance (y m d : Nat) : Decidable (validG y m d) := by
  unfold validG; infer_instance

/-- Calendar successor of a Gregorian date. -/
def nextDay (D : GDate) : GDate :=
  if D.day < gDaysInMonth D.year D.month then ⟨D.year, D.month, D.day + 1⟩
  else if D.month < 12 then ⟨D.year, D.month + 1, 1⟩
  else ⟨D.year + 1, 1, 1⟩

/-- The Gregorian date `n` days after `D` (models `new Date(t + n*86400000)`
relative to the timestamp `t` of `D`). -/
def addDays (D : GDate) : Nat → GDate
  | 0 => D
  | n + 1 => nextDay (addDays D n)

/-- Days in Gregorian months `1..m` of year `y`. -/
def cumGMonths (y : Nat) : Nat → Nat
  | 0 => 0
  | m + 1 => cumGMonths y m + gDaysInMonth y (m + 1)

/-- Length of Gregorian year `y` in days. -/
def gYearDays (y : Nat) : Nat := if gLeap y then 366 else 365

/-- Days in Gregorian years `1900 .. 1900+n-1`. -/
def cumGYears : Nat → Nat
  | 0 => 0
  | n + 1 => cumGYears n + gYearDays (1900 + n)

/-- Day index of the Gregorian date `(y, m, d)` counted from 1900-01-01;
`Date.UTC(y, m-1, d)` is `86400000` times this quantity plus the epoch
timestamp of 1900-01-01. -/
def dayNumberN (y m d : Nat) : Nat :=
  cumGYears (y - 1900) + cumGMonths y (m - 1) + (d - 1)

/-- The lunar epoch 1900-01-31 (lunar 1900-01-01). -/
def epoch : GDate := ⟨1900, 1, 31⟩

/-- The day-count base 1900-01-01. -/
def gbase : GDate := ⟨1900, 1, 1⟩

/-- JS array indexing on a string table: out-of-range gives `undefined`
(which string concatenation renders as "undefined"). -/
def jsIndex (l : List String) (i : Int) : String :=
  if 0 ≤ i ∧ i < l.length then l.getD i.toNat "" else "undefined"

/-- Stem index `(year - 4) % 10` used by `solarToLunar`. -/
def ganIdx (year : Nat) : Nat := (year - 4) % 10

/-- Branch index `(year - 4) % 12` used by `solarToLunar`. -/
def zhiIdx (year : Nat) : Nat := (year - 4) % 12

/-- Result object of `solarToLunar`. -/
structure LunarResult where
  year : Nat
  month : Nat
  day : Int
  isLeap : Bool
  monthDays : Nat
  yearGan : String
  yearZhi : String
  animal : String
  monthName : String
  dayName : String
deriving DecidableEq, Repr

/-- The year-locating loop of `solarToLunar` with an explicit iteration
budget; the budget `2101 - year` is exhausted exactly when the loop
condition `year < 2101` fails, so the fuelled recursion coincides with the
source loop. -/
def yearLoopGo : Nat → Nat → Int → Nat → Nat × Int × Nat
  | 0, year, offset, temp => (year, offset, temp)
  | fuel + 1, year, offset, temp =>
      if year < 2101 ∧ 0 < offset then
        yearLoopGo fuel (year + 1) (offset - lYearDays year) (lYearDays year)
      else (year, offset, temp)

/-- The year-locating loop of `solarToLunar`:
`for (; year < 2101 && offset > 0; year++) { temp = lYearDays(year); offset -= temp; }`. -/
def yearLoop (year : Nat) (offset : Int) (temp : Nat) : Nat × Int × Nat :=
  yearLoopGo (2101 - year) year offset temp

/-- The month-locating loop of `solarToLunar` (body of
`for (; month < 13 && offset > 0; month++)` including the post-increment),
with an explicit iteration budget.  The budget used below,
`2 * (13 - month) + (if isLeap then 0 else 1)`, is zero only when
`13 ≤ month`, where the loop condition fails anyway, so the fuelled
recursion coincides with the source loop. -/
def monthLoopGo (y leap : Nat) : Nat → Nat → Bool → Int → Nat → Nat × Bool × Int × Nat
  | 0, month, isLeap, offset, temp => (month, isLeap, offset, temp)
  | fuel + 1, month, isLeap, offset, temp =>
      if month < 13 ∧ 0 < offset then
        if 0 < leap ∧ month = leap + 1 ∧ isLeap = false then
          -- `--month; isLeap = true; temp = leapDays(year);` then the
          -- `isLeap && month === leap + 1` reset does not fire (month is now leap),
          -- and `month++` restores the original value.
          monthLoopGo y leap fuel ((month - 1) + 1) true (offset - leapDays y) (leapDays y)
        else
          -- `temp = monthDays(year, month)` and the conditional leap-flag reset.
          monthLoopGo y leap fuel (month + 1)
            (if isLeap = true ∧ month = leap + 1 then false else isLeap)
            (offset - monthDays y month) (monthDays y month)
      else (month, isLeap, offset, temp)

/-- Iteration budget of the month loop from a given state. -/
def monthFuel (month : Nat) (isLeap : Bool) : Nat :=
  2 * (13 - month) + (if isLeap then 0 else 1)

def monthLoop (y leap : Nat) (month : Nat) (isLeap : Bool) (offset : Int)
    (temp : Nat) : Nat × Bool × Int × Nat :=
  monthLoopGo y leap (monthFuel month isLeap) month isLeap offset temp

/-- The corrections applied by `solarToLunar` after its month loop: the
boundary-exact leap toggle (`offset === 0 && leap > 0 && month === leap + 1`)
and the overshoot correction (`offset < 0`), returning the final
(month, isLeap, offset) triple. -/
def monthResolve (leap : Nat) (q : Nat × Bool × Int × Nat) : Nat × Bool × Int :=
  let s : Nat × Bool :=
    if q.2.2.1 = 0 ∧ 0 < leap ∧ q.1 = leap + 1 then
      if q.2.1 = true then (q.1, false) else (q.1 - 1, true)
    else (q.1, q.2.1)
  (if q.2.2.1 < 0 then s.1 - 1 else s.1,
   s.2,
   if q.2.2.1 < 0 then q.2.2.1 + q.2.2.2 else q.2.2.1)

/-- The body of `solarToLunar` after the range guard, as a function of the
day offset from the epoch 1900-01-31. -/
def lunarFromOffset (o : Int) : LunarResult :=
  let r1 := yearLoop 1900 o 0
  let year := if r1.2.1 < 0 then r1.1 - 1 else r1.1
  let off1 := if r1.2.1 < 0 then r1.2.1 + r1.2.2 else r1.2.1
  let leap := leapMonth year
  let q := monthLoop year leap 1 false off1 r1.2.2
  let mr := monthResolve leap q
  let month := mr.1
  let day := mr.2.2 + 1
  { year := year, month := month, day := day, isLeap := mr.2.1,
    monthDays := q.2.2.2,
    yearGan := jsIndex Gan (ganIdx year),
    yearZhi := jsIndex Zhi (zhiIdx year),
    animal := jsIndex Animals (zhiIdx year),
    monthName := jsIndex lunarMonths ((month : Int) - 1) ++ "月",
    dayName := jsIndex lunarDays (day - 1) }

/-- `solarToLunar(y, m, d)` of lunar.js.  The day offset
`(Date.UTC(y, m-1, d) - Date.UTC(1900, 0, 31)) / 86400000` is
`dayNumberN y m d - 30` for well-formed dates. -/
def solarToLunar (y m d : Int) : Option LunarResult :=
  if y < 1900 ∨ 2100 < y then none
  else some (lunarFromOffset ((dayNumberN y.toNat m.toNat d.toNat : Int) - 30))

/-- Days in lunar years `1900 .. 1900+n-1`
(the loop `for (y = 1900; y < lunarYear; y++) daysFromBase += lYearDays(y)`). -/
def sumLYear : Nat → Nat
  | 0 => 0
  | n + 1 => sumLYear n + lYearDays (1900 + n)

/-- The month-accumulating loop of `getLunarMonthSolarRange`:
`for (m = 1; m < lunarMonth; m++) { daysFromBase += monthDays(y, m);
if (leap > 0 && m === leap) daysFromBase += leapDays(y); }`,
as a function of the number `n = lunarMonth - 1` of accumulated months. -/
def sumMonthsBefore (y leap : Nat) : Nat → Nat
  | 0 => 0
  | n + 1 => sumMonthsBefore y leap n + monthDays y (n + 1) +
      (if 0 < leap ∧ n + 1 = leap then leapDays y else 0)

/-- Result object of `getLunarMonthSolarRange` (`end` renamed `endDate`). -/
structure SolarRange where
  start : GDate
  endDate : GDate
  days : Nat
deriving DecidableEq, Repr

/-- `getLunarMonthSolarRange(lunarYear, lunarMonth)` of lunar.js. -/
def getLunarMonthSolarRange (lunarYear lunarMonth : Int) : Option SolarRange :=
  if lunarYear < 1900 ∨ 2100 < lunarYear ∨ lunarMonth < 1 ∨ 12 < lunarMonth then
    none
  else
    let ly := lunarYear.toNat
    let lm := lunarMonth.toNat
    let daysFromBase := sumLYear (ly - 1900) + sumMonthsBefore ly (leapMonth ly) (lm - 1)
    let days := monthDays ly lm
    some { start := addDays epoch daysFromBase,
           endDate := addDays epoch (daysFromBase + (days - 1)),
           days := days }

/-- The fixed solar-term month table `jieQiMonthMap` (month, startDay). -/
def jieQiMonthMap : List (Nat × Nat) :=
  [(12, 6), (1, 4), (2, 6), (3, 5), (4, 6), (5, 6),
   (6, 7), (7, 8), (8, 8), (9, 8), (10, 7), (11, 7)]

/-- The table-scanning loop of `getCurrentJieQiYearMonth` (with `break`
modelled by returning) with an explicit iteration budget; the budget
`12 - i` is exhausted exactly when `i < 12` fails, where the loop falls
through to the initial value `1`. -/
def jieQiMonthLoopGo (m d : Int) : Nat → Nat → Nat
  | 0, _ => 1
  | fuel + 1, i =>
      if i < 12 then
        let curr := jieQiMonthMap.getD i (0, 0)
        let currMonth := if curr.1 = 12 then 1 else curr.1 + 1
        if (currMonth : Int) = m then
          if (curr.2 : Int) ≤ d then (if i = 0 then 12 else i)
          else
            let j := if i = 0 then 11 else i - 1
            if j = 0 then 12 else j
        else jieQiMonthLoopGo m d fuel (i + 1)
      else 1

def jieQiMonthLoop (m d : Int) (i : Nat) : Nat :=
  jieQiMonthLoopGo m d (12 - i) i

/-- Result object of `getCurrentJieQiYearMonth`. -/
structure JieQiResult where
  year : Int
  month : Nat
  monthName : String
  shortName : String
  yearGanZhi : String
deriving DecidableEq, Repr

def jieQiMonthNames : List String :=
  ["寅月（正月）", "卯月（二月）", "辰月（三月）", "巳月（四月）",
   "午月（五月）", "未月（六月）", "申月（七月）", "酉月（八月）",
   "戌月（九月）", "亥月（十月）", "子月（冬月）", "丑月（腊月）"]

def jieQiMonthShortNames : List String :=
  ["寅", "卯", "辰", "巳", "午", "未", "申", "酉", "戌", "亥", "子", "丑"]

/-- `getCurrentJieQiYearMonth()` of lunar.js, as a function of the current
Gregorian date `(y, m, d)` read from `new Date()`. -/
def getCurrentJieQiYearMonth (y m d : Int) : JieQiResult :=
  let jieQiMonth := jieQiMonthLoop m d 0
  let jieQiYear := if m = 1 ∨ (m = 2 ∧ d < 4) then y - 1 else y
  { year := jieQiYear,
    month := jieQiMonth,
    monthName := jsIndex jieQiMonthNames ((jieQiMonth : Int) - 1),
    shortName := jsIndex jieQiMonthShortNames ((jieQiMonth : Int) - 1) ++ "月",
    yearGanZhi := jsIndex Gan (Int.tmod (jieQiYear - 4) 10) ++
      jsIndex Zhi (Int.tmod (jieQiYear - 4) 12) }

/-- Plain sum of the 12 ordinary lunar month lengths of year `y`
(`ordinaryMonthLength(year, m)` summed for `m = 1..n`). -/
def plainSum (y : Nat) : Nat → Nat
  | 0 => 0
  | n + 1 => plainSum y n + monthDays y (n + 1)

/-- A `GDate` together with the in-range condition used throughout. -/
def ValidD (D : GDate) : Prop := 1900 ≤ D.year ∧ validG D.year D.month D.day

instance (D : GDate) : Decidable (ValidD D) := by
  unfold ValidD; infer_instance

/-- Day index of a `GDate` from 1900-01-01. -/
def toN (D : GDate) : Nat := dayNumberN D.year D.month D.day

theorem addDays_add (D : GDate) (a b : Nat) :
    addDays D (a + b) = addDays (addDays D a) b := by
  induction b with
  | zero => rfl
  | succ n ih =>
      rw [show a + (n + 1) = (a + n) + 1 from rfl]
      simp only [addDays, ih]

theorem nextDay_mid {y m d : Nat} (h : d < gDaysInMonth y m) :
    nextDay ⟨y, m, d⟩ = ⟨y, m, d + 1⟩ := by
  simp [nextDay, h]

theorem nextDay_eom {y m : Nat} (h : m < 12) :
    nextDay ⟨y, m, gDaysInMonth y m⟩ = ⟨y, m + 1, 1⟩ := by
  simp [nextDay, h]

theorem nextDay_eoy (y : Nat) : nextDay ⟨y, 12, 31⟩ = ⟨y + 1, 1, 1⟩ := by
  simp [nextDay, gDaysInMonth]

theorem gDaysInMonth_pos {y m : Nat} (h1 : 1 ≤ m) (h2 : m ≤ 12) :
    28 ≤ gDaysInMonth y m := by
  interval_cases m <;> simp [gDaysInMonth] <;> split <;> omega

theorem addDays_within {y m d : Nat} (k : Nat) (h1 : 1 ≤ d)
    (h2 : d + k ≤ gDaysInMonth y m) :
    addDays ⟨y, m, d⟩ k = ⟨y, m, d + k⟩ := by
  induction k with
  | zero => rfl
  | succ n ih =>
      have hn : d + n ≤ gDaysInMonth y m := by omega
      rw [show (n + 1) = n + 1 from rfl]
      simp only [addDays, ih hn]
      rw [nextDay_mid (by omega)]
      rfl

theorem addDays_month {y m : Nat} (h1 : 1 ≤ m) (h2 : m ≤ 12) :
    addDays ⟨y, m, 1⟩ (gDaysInMonth y m) =
      if m = 12 then ⟨y + 1, 1, 1⟩ else ⟨y, m + 1, 1⟩ := by
  have hd : 28 ≤ gDaysInMonth y m := gDaysInMonth_pos h1 h2
  have hsplit : gDaysInMonth y m = (gDaysInMonth y m - 1) + 1 := by omega
  rw [hsplit]
  simp only [addDays]
  rw [addDays_within (gDaysInMonth y m - 1) le_rfl (by omega)]
  rw [show 1 + (gDaysInMonth y m - 1) = gDaysInMonth y m from by omega]
  by_cases h12 : m = 12
  · subst h12
    rw [show gDaysInMonth y 12 = 31 from rfl]
    simp [nextDay_eoy]
  · rw [nextDay_eom (by omega)]
    simp [h12]

theorem addDays_months (y : Nat) :
    ∀ m, m ≤ 11 → addDays ⟨y, 1, 1⟩ (cumGMonths y m) = ⟨y, m + 1, 1⟩ := by
  intro m
  induction m with
  | zero => intro _; rfl
  | succ n ih =>
      intro h
      have : cumGMonths y (n + 1) = cumGMonths y n + gDaysInMonth y (n + 1) := rfl
      rw [this, addDays_add, ih (by omega), addDays_month (by omega) (by omega)]
      simp [show ¬(n + 1 = 12) from by omega]

theorem cumGMonths_12 (y : Nat) : cumGMonths y 12 = gYearDays y := by
  by_cases h : gLeap y = true <;>
    simp [cumGMonths, gDaysInMonth, gYearDays, h]

theorem addDays_year (y : Nat) :
    addDays ⟨y, 1, 1⟩ (gYearDays y) = ⟨y + 1, 1, 1⟩ := by
  rw [← cumGMonths_12]
  have : cumGMonths y 12 = cumGMonths y 11 + gDaysInMonth y 12 := rfl
  rw [this, addDays_add, addDays_months y 11 le_rfl,
    addDays_month (by omega) le_rfl]
  rfl

theorem addDays_years (n : Nat) :
    addDays gbase (cumGYears n) = ⟨1900 + n, 1, 1⟩ := by
  induction n with
  | zero => rfl
  | succ k ih =>
      have : cumGYears (k + 1) = cumGYears k + gYearDays (1900 + k) := rfl
      rw [this, addDays_add, ih, addDays_year]
      rfl

/-- The day-number map inverts calendar succession: `n` days after
1900-01-01 is the civil date whose day index is `n`. -/
theorem addDays_gbase_dayNumber {y m d : Nat} (hy : 1900 ≤ y)
    (hv : validG y m d) :
    addDays gbase (dayNumberN y m d) = ⟨y, m, d⟩ := by
  obtain ⟨hm1, hm2, hd1, hd2⟩ := hv
  unfold dayNumberN
  rw [addDays_add, addDays_add, addDays_years (y - 1900),
    show 1900 + (y - 1900) = y from by omega,
    addDays_months y (m - 1) (by omega),
    show (m - 1) + 1 = m from by omega,
    addDays_within (d - 1) le_rfl (by omega),
    show 1 + (d - 1) = d from by omega]

theorem ValidD_mk {y m d : Nat} :
    ValidD ⟨y, m, d⟩ ↔ 1900 ≤ y ∧ 1 ≤ m ∧ m ≤ 12 ∧ 1 ≤ d ∧ d ≤ gDaysInMonth y m :=
  Iff.rfl

theorem toN_mk {y m d : Nat} : toN ⟨y, m, d⟩ = dayNumberN y m d := rfl

theorem cumGMonths_shift {y m : Nat} (h : 1 ≤ m) :
    cumGMonths y m = cumGMonths y (m - 1) + gDaysInMonth y m := by
  conv_lhs => rw [show m = (m - 1) + 1 from by omega]
  rw [show cumGMonths y ((m - 1) + 1) = cumGMonths y (m - 1) + gDaysInMonth y ((m - 1) + 1) from rfl]
  rw [show (m - 1) + 1 = m from by omega]

theorem nextDay_toN {D : GDate} (h : ValidD D) :
    ValidD (nextDay D) ∧ toN (nextDay D) = toN D + 1 := by
  obtain ⟨y, m, d⟩ := D
  rw [ValidD_mk] at h
  obtain ⟨hy, hm1, hm2, hd1, hd2⟩ := h
  by_cases hlt : d < gDaysInMonth y m
  · rw [nextDay_mid hlt, ValidD_mk, toN_mk, toN_mk]
    refine ⟨⟨hy, hm1, hm2, by omega, by omega⟩, ?_⟩
    unfold dayNumberN
    omega
  · have hde : d = gDaysInMonth y m := by omega
    subst hde
    by_cases hm12 : m < 12
    · rw [nextDay_eom hm12, ValidD_mk, toN_mk, toN_mk]
      have h28a : 28 ≤ gDaysInMonth y m := gDaysInMonth_pos hm1 hm2
      have h28b : 28 ≤ gDaysInMonth y (m + 1) := gDaysInMonth_pos (by omega) (by omega)
      refine ⟨⟨hy, by omega, by omega, by omega, by omega⟩, ?_⟩
      unfold dayNumberN
      have hcum : cumGMonths y m = cumGMonths y (m - 1) + gDaysInMonth y m :=
        cumGMonths_shift hm1
      rw [show (m + 1) - 1 = m from by omega]
      omega
    · have hm' : m = 12 := by omega
      subst hm'
      rw [show gDaysInMonth y 12 = 31 from rfl]
      rw [nextDay_eoy, ValidD_mk, toN_mk, toN_mk]
      refine ⟨⟨by omega, by omega, by omega, by omega,
        by rw [show gDaysInMonth (y + 1) 1 = 31 from rfl]; omega⟩, ?_⟩
      unfold dayNumberN
      have hcy : cumGYears ((y + 1) - 1900) = cumGYears (y - 1900) + gYearDays y := by
        rw [show (y + 1) - 1900 = (y - 1900) + 1 from by omega]
        rw [show cumGYears ((y - 1900) + 1) = cumGYears (y - 1900) + gYearDays (1900 + (y - 1900)) from rfl]
        rw [show 1900 + (y - 1900) = y from by omega]
      have hg : gYearDays y = cumGMonths y 11 + 31 := by
        rw [← cumGMonths_12]
        rfl
      rw [show cumGMonths (y + 1) (1 - 1) = 0 from rfl,
        show (12 : Nat) - 1 = 11 from rfl]
      omega

theorem toN_addDays (n : Nat) :
    ValidD (addDays gbase n) ∧ toN (addDays gbase n) = n := by
  induction n with
  | zero => exact ⟨by decide, by decide⟩
  | succ k ih =>
      have step := nextDay_toN ih.1
      exact ⟨step.1, by simp only [addDays, step.2, ih.2]⟩

theorem addDays_gbase_inj {a b : Nat}
    (h : addDays gbase a = addDays gbase b) : a = b := by
  have ha := (toN_addDays a).2
  have hb := (toN_addDays b).2
  rw [h] at ha
  omega

theorem epoch_eq : epoch = addDays gbase 30 := by decide

theorem lYearDays_pos (y : Nat) : 0 < lYearDays y := by
  unfold lYearDays
  omega

theorem sumLYear_succ (n : Nat) :
    sumLYear (n + 1) = sumLYear n + lYearDays (1900 + n) := rfl

theorem sumLYear_step_le {a b : Nat} (h : a < b) :
    sumLYear a + lYearDays (1900 + a) ≤ sumLYear b := by
  induction b with
  | zero => omega
  | succ n ih =>
      rcases Nat.lt_succ_iff_lt_or_eq.mp h with h2 | h2
      · have h3 := ih h2
        have h4 := lYearDays_pos (1900 + n)
        rw [sumLYear_succ]
        omega
      · subst h2
        rw [sumLYear_succ]

theorem sumLYear_mono {a b : Nat} (h : a ≤ b) : sumLYear a ≤ sumLYear b := by
  rcases Nat.eq_or_lt_of_le h with h2 | h2
  · subst h2; rfl
  · have := sumLYear_step_le h2
    omega

theorem yearLoop_exit {year : Nat} {o : Int} {t : Nat}
    (h : ¬(year < 2101 ∧ 0 < o)) : yearLoop year o t = (year, o, t) := by
  unfold yearLoop
  cases hf : 2101 - year with
  | zero => rfl
  | succ k =>
      rw [show yearLoopGo (k + 1) year o t
        = if year < 2101 ∧ 0 < o then
            yearLoopGo k (year + 1) (o - lYearDays year) (lYearDays year)
          else (year, o, t) from rfl]
      rw [if_neg h]

theorem yearLoop_step {year : Nat} {o : Int} {t : Nat}
    (h1 : year < 2101) (h2 : 0 < o) :
    yearLoop year o t = yearLoop (year + 1) (o - lYearDays year) (lYearDays year) := by
  unfold yearLoop
  rw [show 2101 - year = (2101 - (year + 1)) + 1 from by omega]
  rw [show yearLoopGo ((2101 - (year + 1)) + 1) year o t
    = if year < 2101 ∧ 0 < o then
        yearLoopGo (2101 - (year + 1)) (year + 1) (o - lYearDays year) (lYearDays year)
      else (year, o, t) from rfl]
  rw [if_pos ⟨h1, h2⟩]

theorem yearLoop_chain {o : Int} :
    ∀ n, n ≤ 201 → (sumLYear n : Int) ≤ o →
      ∃ t, yearLoop 1900 o 0 = yearLoop (1900 + n) (o - sumLYear n) t := by
  intro n
  induction n with
  | zero =>
      intro _ _
      refine ⟨0, ?_⟩
      norm_num [sumLYear]
  | succ k ih =>
      intro hk hs
      have hstep : sumLYear k + lYearDays (1900 + k) ≤ sumLYear (k + 1) :=
        sumLYear_step_le (Nat.lt_succ_self k)
      have hpos := lYearDays_pos (1900 + k)
      have hlt : (sumLYear k : Int) < o := by omega
      obtain ⟨t, ht⟩ := ih (by omega) (by omega)
      refine ⟨lYearDays (1900 + k), ?_⟩
      rw [ht, yearLoop_step (by omega) (by omega)]
      rw [show 1900 + k + 1 = 1900 + (k + 1) from rfl]
      rw [sumLYear_succ]
      congr 1
      push_cast
      ring

theorem sumLYear_at {Y : Nat} (h : 1900 ≤ Y) :
    sumLYear (Y - 1900 + 1) = sumLYear (Y - 1900) + lYearDays Y := by
  rw [sumLYear_succ, show 1900 + (Y - 1900) = Y from by omega]

/-- Characterization of the year loop plus its overshoot correction: when the
offset falls inside lunar year `Y`, the corrected year is `Y` and the
corrected offset is the position of the day within year `Y`. -/
theorem yearPhase {o : Int} {Y : Nat} (h1 : 1900 ≤ Y) (h2 : Y ≤ 2100)
    (hlo : (sumLYear (Y - 1900) : Int) ≤ o)
    (hhi : o < (sumLYear (Y - 1900 + 1) : Int)) :
    ∃ Yr off t, yearLoop 1900 o 0 = (Yr, off, t) ∧
      (if off < 0 then Yr - 1 else Yr) = Y ∧
      (if off < 0 then off + (t : Int) else off) = o - sumLYear (Y - 1900) := by
  obtain ⟨t, ht⟩ := yearLoop_chain (Y - 1900) (by omega) hlo
  rw [show 1900 + (Y - 1900) = Y from by omega] at ht
  rw [sumLYear_at h1] at hhi
  rcases eq_or_lt_of_le hlo with heq | hlt
  · refine ⟨Y, 0, t, ?_, ?_, ?_⟩
    · rw [ht, show o - (sumLYear (Y - 1900) : Int) = 0 from by omega]
      exact yearLoop_exit (by simp)
    · norm_num
    · norm_num
      omega
  · refine ⟨Y + 1, o - sumLYear (Y - 1900) - lYearDays Y, lYearDays Y, ?_, ?_, ?_⟩
    · rw [ht, yearLoop_step (by omega) (by omega)]
      exact yearLoop_exit (by push_cast; omega)
    · rw [if_pos (by push_cast; omega)]
      omega
    · rw [if_pos (by push_cast; omega)]
      push_cast
      ring

theorem year_exists {o : Int} (h0 : 0 ≤ o) (h1 : o < (sumLYear 201 : Int)) :
    ∃ Y, 1900 ≤ Y ∧ Y ≤ 2100 ∧ (sumLYear (Y - 1900) : Int) ≤ o ∧
      o < (sumLYear (Y - 1900 + 1) : Int) := by
  have main : ∀ n, o < (sumLYear n : Int) →
      ∃ k, k < n ∧ (sumLYear k : Int) ≤ o ∧ o < (sumLYear (k + 1) : Int) := by
    intro n
    induction n with
    | zero => intro h; norm_num [sumLYear] at h; omega
    | succ j ih =>
        intro h
        by_cases hj : o < (sumLYear j : Int)
        · obtain ⟨k, hk1, hk2, hk3⟩ := ih hj
          exact ⟨k, by omega, hk2, hk3⟩
        · exact ⟨j, by omega, by omega, h⟩
  obtain ⟨k, hk1, hk2, hk3⟩ := main 201 h1
  refine ⟨1900 + k, by omega, by omega, ?_, ?_⟩
  · rw [show 1900 + k - 1900 = k from by omega]; exact hk2
  · rw [show 1900 + k - 1900 = k from by omega]; exact hk3

theorem monthDays_ge (y m : Nat) : 29 ≤ monthDays y m := by
  unfold monthDays
  split <;> omega

theorem leapDays_ge {y : Nat} (h : leapMonth y ≠ 0) : 29 ≤ leapDays y := by
  unfold leapDays
  rw [if_pos h]
  split <;> omega

theorem leapDays_of_no_leap {y : Nat} (h : leapMonth y = 0) : leapDays y = 0 := by
  unfold leapDays
  simp [h]

theorem plainSum_succ (y n : Nat) :
    plainSum y (n + 1) = plainSum y n + monthDays y (n + 1) := rfl

theorem plainSum_shift {y m : Nat} (h : 1 ≤ m) :
    plainSum y m = plainSum y (m - 1) + monthDays y m := by
  conv_lhs => rw [show m = (m - 1) + 1 from by omega]
  rw [plainSum_succ, show (m - 1) + 1 = m from by omega]

theorem plainSum_mono {y : Nat} {a b : Nat} (h : a ≤ b) :
    plainSum y a ≤ plainSum y b := by
  induction b with
  | zero =>
      have ha : a = 0 := by omega
      subst ha
      exact le_rfl
  | succ n ih =>
      rcases Nat.lt_succ_iff_lt_or_eq.mp (Nat.lt_succ_of_le h) with h2 | h2
      · have h3 := ih (by omega)
        have h4 := monthDays_ge y (n + 1)
        rw [plainSum_succ]
        omega
      · subst h2
        exact le_rfl

theorem sumMB_succ (y leap n : Nat) :
    sumMonthsBefore y leap (n + 1) = sumMonthsBefore y leap n + monthDays y (n + 1) +
      (if 0 < leap ∧ n + 1 = leap then leapDays y else 0) := rfl

theorem sumMB_eq_plain (y leap : Nat) :
    ∀ n, sumMonthsBefore y leap n =
      plainSum y n + (if 0 < leap ∧ leap ≤ n then leapDays y else 0) := by
  intro n
  induction n with
  | zero =>
      rw [show sumMonthsBefore y leap 0 = 0 from rfl, show plainSum y 0 = 0 from rfl]
      split_ifs with h <;> omega
  | succ k ih =>
      rw [sumMB_succ, plainSum_succ, ih]
      split_ifs <;> omega

theorem sumMB_shift {y leap m : Nat} (h1 : 1 ≤ m) (h2 : ¬(0 < leap ∧ m = leap)) :
    sumMonthsBefore y leap m = sumMonthsBefore y leap (m - 1) + monthDays y m := by
  conv_lhs => rw [show m = (m - 1) + 1 from by omega]
  rw [sumMB_succ, show (m - 1) + 1 = m from by omega, if_neg h2]
  omega

theorem monthLoopGo_step_eq (y leap fuel month : Nat) (isLeap : Bool)
    (offset : Int) (temp : Nat) :
    monthLoopGo y leap (fuel + 1) month isLeap offset temp =
      if month < 13 ∧ 0 < offset then
        if 0 < leap ∧ month = leap + 1 ∧ isLeap = false then
          monthLoopGo y leap fuel ((month - 1) + 1) true (offset - leapDays y) (leapDays y)
        else
          monthLoopGo y leap fuel (month + 1)
            (if isLeap = true ∧ month = leap + 1 then false else isLeap)
            (offset - monthDays y month) (monthDays y month)
      else (month, isLeap, offset, temp) := rfl

theorem monthFuel_succ_le {month : Nat} (h13 : month < 13) {il il2 : Bool}
    {f : Nat} (h : monthFuel month il ≤ f + 1) : monthFuel (month + 1) il2 ≤ f := by
  cases il <;> cases il2 <;> simp [monthFuel] at h ⊢ <;> omega

/-- Any two sufficient iteration budgets give the month loop the same
result. -/
theorem monthLoopGo_congr (y leap : Nat) :
    ∀ f1 f2 month : Nat, ∀ il : Bool, ∀ o : Int, ∀ t : Nat,
      monthFuel month il ≤ f1 → monthFuel month il ≤ f2 →
      monthLoopGo y leap f1 month il o t = monthLoopGo y leap f2 month il o t := by
  intro f1
  induction f1 with
  | zero =>
      intro f2 month il o t h1 h2
      have hm : 13 ≤ month := by
        cases il <;> simp [monthFuel] at h1 <;> omega
      cases f2 with
      | zero => rfl
      | succ k =>
          rw [monthLoopGo_step_eq, if_neg (by rintro ⟨hc, -⟩; omega)]
          rfl
  | succ g ih =>
      intro f2 month il o t h1 h2
      cases f2 with
      | zero =>
          have hm : 13 ≤ month := by
            cases il <;> simp [monthFuel] at h2 <;> omega
          rw [monthLoopGo_step_eq, if_neg (by rintro ⟨hc, -⟩; omega)]
          rfl
      | succ k =>
          rw [monthLoopGo_step_eq, monthLoopGo_step_eq]
          by_cases hc : month < 13 ∧ 0 < o
          · rw [if_pos hc, if_pos hc]
            by_cases hb : 0 < leap ∧ month = leap + 1 ∧ il = false
            · rw [if_pos hb, if_pos hb]
              obtain ⟨-, hmeq, hilf⟩ := hb
              subst hilf
              apply ih
              · simp [monthFuel] at h1 ⊢
                omega
              · simp [monthFuel] at h2 ⊢
                omega
            · rw [if_neg hb, if_neg hb]
              apply ih
              · exact monthFuel_succ_le hc.1 h1
              · exact monthFuel_succ_le hc.1 h2
          · rw [if_neg hc, if_neg hc]

theorem monthLoop_exit {y leap month : Nat} {isLeap : Bool} {o : Int} {t : Nat}
    (h : ¬(month < 13 ∧ 0 < o)) :
    monthLoop y leap month isLeap o t = (month, isLeap, o, t) := by
  unfold monthLoop
  cases hf : monthFuel month isLeap with
  | zero => rfl
  | succ k => rw [monthLoopGo_step_eq, if_neg h]

theorem monthLoop_ord_step {y leap month : Nat} {o : Int} {t : Nat}
    (h13 : month < 13) (ho : 0 < o) (hne : ¬(0 < leap ∧ month = leap + 1)) :
    monthLoop y leap month false o t =
      monthLoop y leap (month + 1) false (o - monthDays y month) (monthDays y month) := by
  unfold monthLoop
  rw [show monthFuel month false = 2 * (13 - month) + 1 from rfl]
  rw [monthLoopGo_step_eq, if_pos ⟨h13, ho⟩,
    if_neg (by rintro ⟨ha, hb, -⟩; exact hne ⟨ha, hb⟩)]
  rw [show (if (false = true ∧ month = leap + 1) then false else false) = false from
    by simp]
  apply monthLoopGo_congr <;> simp [monthFuel] <;> omega

theorem monthLoop_leap_step {y leap : Nat} {o : Int} {t : Nat}
    (hl : 0 < leap) (h13 : leap + 1 < 13) (ho : 0 < o) :
    monthLoop y leap (leap + 1) false o t =
      monthLoop y leap (leap + 1) true (o - leapDays y) (leapDays y) := by
  unfold monthLoop
  rw [show monthFuel (leap + 1) false = 2 * (13 - (leap + 1)) + 1 from rfl]
  rw [monthLoopGo_step_eq, if_pos ⟨h13, ho⟩, if_pos ⟨hl, rfl, rfl⟩]
  rw [show (leap + 1 - 1) + 1 = leap + 1 from rfl]
  apply monthLoopGo_congr <;> simp [monthFuel]

theorem monthLoop_postleap_step {y leap : Nat} {o : Int} {t : Nat}
    (h13 : leap + 1 < 13) (ho : 0 < o) :
    monthLoop y leap (leap + 1) true o t =
      monthLoop y leap (leap + 2) false (o - monthDays y (leap + 1)) (monthDays y (leap + 1)) := by
  unfold monthLoop
  rw [show monthFuel (leap + 1) true = 2 * (13 - (leap + 1)) from rfl]
  rw [show 2 * (13 - (leap + 1)) = (2 * (13 - (leap + 1)) - 1) + 1 from by omega]
  rw [monthLoopGo_step_eq, if_pos ⟨h13, ho⟩,
    if_neg (by rintro ⟨-, -, hfalse⟩; simp at hfalse)]
  rw [show (if (true = true ∧ leap + 1 = leap + 1) then false else true) = false from
    by simp]
  apply monthLoopGo_congr <;> simp [monthFuel] <;> omega

/-- Walking the month loop across ordinary months `1 .. m-1`, before any
leap-month slot is reached. -/
theorem monthChainA {y leap : Nat} {o2 : Int} :
    ∀ m, 1 ≤ m → m ≤ 13 → (0 < leap → m ≤ leap + 1) →
      (plainSum y (m - 1) : Int) ≤ o2 →
      ∀ t0, ∃ t, monthLoop y leap 1 false o2 t0 =
        monthLoop y leap m false (o2 - plainSum y (m - 1)) t := by
  intro m
  induction m with
  | zero => intro h; omega
  | succ k ih =>
      intro h1 h2 h3 hs t0
      by_cases hk : k = 0
      · subst hk
        refine ⟨t0, ?_⟩
        norm_num [plainSum]
      · have hks : plainSum y k = plainSum y (k - 1) + monthDays y k :=
          plainSum_shift (by omega)
        have hmge := monthDays_ge y k
        rw [show (k + 1) - 1 = k from by omega] at hs
        obtain ⟨t, ht⟩ := ih (by omega) (by omega) (fun hl => by have := h3 hl; omega)
          (by omega) t0
        refine ⟨monthDays y k, ?_⟩
        rw [ht, monthLoop_ord_step (by omega) (by push_cast; omega)
          (by intro hc; rcases hc with ⟨hl, he⟩; have := h3 hl; omega)]
        have harg : (o2 - plainSum y (k - 1)) - monthDays y k = o2 - plainSum y k := by
          rw [hks]
          push_cast
          ring
        rw [harg, show (k + 1) - 1 = k from by omega]

/-- Walking the month loop across ordinary months after the leap slot. -/
theorem monthChainB {y leap : Nat} {o2 : Int} (hl : 0 < leap) :
    ∀ m, leap + 2 ≤ m → m ≤ 13 →
      (sumMonthsBefore y leap (m - 1) : Int) ≤ o2 →
      ∀ t0, ∃ t, monthLoop y leap (leap + 2) false
          (o2 - sumMonthsBefore y leap (leap + 1)) t0 =
        monthLoop y leap m false (o2 - sumMonthsBefore y leap (m - 1)) t := by
  intro m
  induction m with
  | zero => intro h; omega
  | succ k ih =>
      intro h1 h2 hs
      intro t0
      by_cases hk : k + 1 = leap + 2
      · refine ⟨t0, ?_⟩
        rw [show (k + 1) - 1 = k from by omega, show k = leap + 1 from by omega]
      · have hks : sumMonthsBefore y leap k = sumMonthsBefore y leap (k - 1) + monthDays y k :=
          sumMB_shift (by omega) (by omega)
        have hmge := monthDays_ge y k
        rw [show (k + 1) - 1 = k from by omega] at hs
        obtain ⟨t, ht⟩ := ih (by omega) (by omega) (by omega) t0
        refine ⟨monthDays y k, ?_⟩
        rw [ht, monthLoop_ord_step (by omega) (by push_cast; omega) (by omega)]
        have harg : (o2 - sumMonthsBefore y leap (k - 1)) - monthDays y k
            = o2 - sumMonthsBefore y leap k := by
          rw [hks]
          push_cast
          ring
        rw [harg, show (k + 1) - 1 = k from by omega]

theorem sumMB_mono {y leap : Nat} {a b : Nat} (h : a ≤ b) :
    sumMonthsBefore y leap a ≤ sumMonthsBefore y leap b := by
  rw [sumMB_eq_plain, sumMB_eq_plain]
  have := plainSum_mono (y := y) h
  split_ifs <;> omega

/-- `monthResolve` on a negative remaining offset: undo the last
subtraction and step the month back. -/
theorem monthResolve_neg {leap month : Nat} {il : Bool} {off : Int} {t : Nat}
    (h : off < 0) :
    monthResolve leap (month, il, off, t) = (month - 1, il, off + t) := by
  simp only [monthResolve]
  rw [if_neg (show ¬(off = 0 ∧ 0 < leap ∧ month = leap + 1) from
    fun hc => absurd hc.1 (by omega))]
  rw [if_pos h, if_pos h]

/-- `monthResolve` on a zero offset away from the leap boundary. -/
theorem monthResolve_zero_ord {leap month : Nat} {il : Bool} {t : Nat}
    (h : ¬(0 < leap ∧ month = leap + 1)) :
    monthResolve leap (month, il, (0 : Int), t) = (month, il, 0) := by
  simp [monthResolve, h]

/-- `monthResolve` on a zero offset at the leap boundary with the leap flag
still set: the flag is cleared (first day of the month after the leap month). -/
theorem monthResolve_zero_afterleap {leap : Nat} {t : Nat} (hl : 0 < leap) :
    monthResolve leap (leap + 1, true, (0 : Int), t) = (leap + 1, false, 0) := by
  simp [monthResolve, hl]

/-- `monthResolve` on a zero offset at the leap boundary with the leap flag
clear: the flag is set and the month stepped back (first day of the leap
month). -/
theorem monthResolve_zero_leapstart {leap : Nat} {t : Nat} (hl : 0 < leap) :
    monthResolve leap (leap + 1, false, (0 : Int), t) = (leap, true, 0) := by
  simp [monthResolve, hl]

/-- Landing tail: entering the loop at an ordinary month `m` (not the leap
slot) with the remaining offset inside month `m`. -/
theorem monthLand_ord {y leap m : Nat} {o2 P : Int} {t : Nat}
    (hm13 : m < 13) (hne : ¬(0 < leap ∧ m = leap + 1))
    (hlo : P ≤ o2) (hhi : o2 < P + monthDays y m) :
    ∃ q, monthLoop y leap m false (o2 - P) t = q ∧
      monthResolve leap q = (m, false, o2 - P) ∧
      (P < o2 → q.2.2.2 = monthDays y m) := by
  rcases eq_or_lt_of_le hlo with heq | hlt
  · refine ⟨(m, false, 0, t), ?_, ?_, ?_⟩
    · rw [show o2 - P = 0 from by omega]
      exact monthLoop_exit (by norm_num)
    · rw [monthResolve_zero_ord hne]
      rw [show o2 - P = 0 from by omega]
    · omega
  · refine ⟨(m + 1, false, o2 - P - monthDays y m, monthDays y m), ?_, ?_, ?_⟩
    · rw [monthLoop_ord_step hm13 (by omega) hne]
      exact monthLoop_exit (by
        rintro ⟨-, hpos⟩
        omega)
    · rw [monthResolve_neg (by omega)]
      rw [show m + 1 - 1 = m from rfl,
        show o2 - P - (monthDays y m : Int) + (monthDays y m : Int) = o2 - P from by ring]
    · intro _
      rfl

/-- Landing tail: entering the loop just after the leap slot (state
`(leap+1, true)`) with the remaining offset inside ordinary month `leap+1`. -/
theorem monthLand_after_leap {y leap : Nat} {o2 P : Int} {t : Nat}
    (h13 : leap + 1 < 13) (hl : 0 < leap)
    (hlo : P ≤ o2) (hhi : o2 < P + monthDays y (leap + 1)) :
    ∃ q, monthLoop y leap (leap + 1) true (o2 - P) t = q ∧
      monthResolve leap q = (leap + 1, false, o2 - P) ∧
      (P < o2 → q.2.2.2 = monthDays y (leap + 1)) := by
  rcases eq_or_lt_of_le hlo with heq | hlt
  · refine ⟨(leap + 1, true, 0, t), ?_, ?_, ?_⟩
    · rw [show o2 - P = 0 from by omega]
      exact monthLoop_exit (by norm_num)
    · rw [monthResolve_zero_afterleap hl]
      rw [show o2 - P = 0 from by omega]
    · omega
  · refine ⟨(leap + 2, false, o2 - P - monthDays y (leap + 1), monthDays y (leap + 1)),
      ?_, ?_, ?_⟩
    · rw [monthLoop_postleap_step h13 (by omega)]
      exact monthLoop_exit (by
        rintro ⟨-, hpos⟩
        omega)
    · rw [monthResolve_neg (by omega)]
      rw [show leap + 2 - 1 = leap + 1 from rfl,
        show o2 - P - (monthDays y (leap + 1) : Int) + (monthDays y (leap + 1) : Int)
          = o2 - P from by ring]
    · intro _
      rfl

/-- Full month-phase characterization, ordinary landing: when the in-year
offset `o2` falls inside ordinary month `m`, the loop plus the two
post-loop corrections resolve to `(m, not leap)` with the day offset
relative to the start of month `m`. -/
theorem monthPhase_ord {y leap : Nat} (hle : leap ≤ 11)
    (hld : 0 < leap → 29 ≤ leapDays y) {o2 : Int} {m : Nat}
    (hm1 : 1 ≤ m) (hm2 : m ≤ 12)
    (hlo : (sumMonthsBefore y leap (m - 1) : Int) ≤ o2)
    (hhi : o2 < sumMonthsBefore y leap (m - 1) + monthDays y m) (t0 : Nat) :
    ∃ q, monthLoop y leap 1 false o2 t0 = q ∧
      monthResolve leap q = (m, false, o2 - sumMonthsBefore y leap (m - 1)) ∧
      ((sumMonthsBefore y leap (m - 1) : Int) < o2 → q.2.2.2 = monthDays y m) := by
  by_cases hcase : leap = 0 ∨ m ≤ leap
  · -- entirely before any leap slot
    have hcc : leap = 0 ∨ (0 < leap ∧ m ≤ leap) := by
      rcases hcase with hc | hc
      · exact Or.inl hc
      · rcases Nat.eq_zero_or_pos leap with h0 | h0
        · exact Or.inl h0
        · exact Or.inr ⟨h0, hc⟩
    have hP : sumMonthsBefore y leap (m - 1) = plainSum y (m - 1) := by
      rw [sumMB_eq_plain]
      rw [if_neg (by rcases hcc with hc | hc <;> omega)]
      omega
    rw [hP] at hlo hhi ⊢
    obtain ⟨t, ht⟩ := @monthChainA y leap o2 m hm1 (by omega)
      (fun hlp => by rcases hcc with hc | hc <;> omega) hlo t0
    obtain ⟨q, hq1, hq2, hq3⟩ := @monthLand_ord y leap m _ _ t (by omega)
      (by intro hcon; rcases hcc with hc | hc <;> omega) hlo hhi
    exact ⟨q, by rw [ht, hq1], hq2, hq3⟩
  · push_neg at hcase
    obtain ⟨hl0, hml⟩ := hcase
    have hl : 0 < leap := by omega
    have hld29 := hld hl
    have hSL : (sumMonthsBefore y leap leap : Int)
        = (plainSum y leap : Int) + leapDays y := by
      rw [sumMB_eq_plain, if_pos ⟨hl, le_rfl⟩]
      push_cast
      ring
    by_cases hm : m = leap + 1
    · -- landing in the ordinary month right after the leap month
      subst hm
      rw [show leap + 1 - 1 = leap from rfl] at hlo hhi ⊢
      have hplain : (plainSum y leap : Int) ≤ o2 := by omega
      obtain ⟨t, ht⟩ := monthChainA (leap + 1) (by omega) (by omega)
        (fun _ => le_rfl) hplain t0
      rw [show leap + 1 - 1 = leap from rfl] at ht
      have hstep := monthLoop_leap_step (y := y) (o := o2 - plainSum y leap) (t := t)
        hl (by omega) (by omega)
      have hrw : o2 - (plainSum y leap : Int) - leapDays y
          = o2 - sumMonthsBefore y leap leap := by
        rw [hSL]
        ring
      rw [hrw] at hstep
      obtain ⟨q, hq1, hq2, hq3⟩ := monthLand_after_leap (t := leapDays y)
        (by omega) hl hlo hhi
      exact ⟨q, by rw [ht, hstep, hq1], hq2, hq3⟩
    · -- landing strictly after the month following the leap month
      have hm2le : leap + 2 ≤ m := by omega
      have hPm1 : sumMonthsBefore y leap (leap + 1)
          = plainSum y leap + leapDays y + monthDays y (leap + 1) := by
        rw [sumMB_shift (by omega) (by omega)]
        rw [show leap + 1 - 1 = leap from rfl, sumMB_eq_plain, if_pos ⟨hl, le_rfl⟩]
      have hmono : sumMonthsBefore y leap (leap + 1) ≤ sumMonthsBefore y leap (m - 1) :=
        sumMB_mono (by omega)
      have hdm := monthDays_ge y (leap + 1)
      have hx1 : (plainSum y leap : Int) ≤ o2 := by omega
      have hx2 : 0 < o2 - (plainSum y leap : Int) := by omega
      have hx3 : 0 < o2 - (plainSum y leap : Int) - leapDays y := by omega
      obtain ⟨t, ht⟩ := monthChainA (leap + 1) (by omega) (by omega)
        (fun _ => le_rfl) hx1 t0
      rw [show leap + 1 - 1 = leap from rfl] at ht
      have hstep1 := monthLoop_leap_step (y := y) (o := o2 - plainSum y leap) (t := t)
        hl (by omega) hx2
      have hstep2 := @monthLoop_postleap_step y leap
        (o2 - (plainSum y leap : Int) - leapDays y) (leapDays y)
        (by omega) hx3
      have hPm1i : (sumMonthsBefore y leap (leap + 1) : Int)
          = (plainSum y leap : Int) + leapDays y + monthDays y (leap + 1) := by
        rw [hPm1]
        push_cast
        ring
      have hrw2 : o2 - (plainSum y leap : Int) - leapDays y - monthDays y (leap + 1)
          = o2 - sumMonthsBefore y leap (leap + 1) := by
        rw [hPm1i]
        ring
      rw [hrw2] at hstep2
      obtain ⟨t2, ht2⟩ := monthChainB hl m hm2le (by omega) hlo (monthDays y (leap + 1))
      obtain ⟨q, hq1, hq2, hq3⟩ := @monthLand_ord y leap m _ _ t2 (by omega)
        (by intro hcon; omega) hlo hhi
      exact ⟨q, by rw [ht, hstep1, hstep2, ht2, hq1], hq2, hq3⟩

/-- Full month-phase characterization, leap landing: when the in-year offset
`o2` falls inside the leap month, the loop plus corrections resolve to
month `leap` with the leap flag set. -/
theorem monthPhase_leap {y leap : Nat} (hle : leap ≤ 11) (hl : 0 < leap)
    {o2 : Int}
    (hlo : (plainSum y leap : Int) ≤ o2)
    (hhi : o2 < plainSum y leap + leapDays y) (t0 : Nat) :
    ∃ q, monthLoop y leap 1 false o2 t0 = q ∧
      monthResolve leap q = (leap, true, o2 - plainSum y leap) ∧
      ((plainSum y leap : Int) < o2 → q.2.2.2 = leapDays y) := by
  obtain ⟨t, ht⟩ := monthChainA (leap + 1) (by omega) (by omega)
    (fun _ => le_rfl) hlo t0
  rw [show leap + 1 - 1 = leap from rfl] at ht
  rcases eq_or_lt_of_le hlo with heq | hlt
  · refine ⟨(leap + 1, false, 0, t), ?_, ?_, ?_⟩
    · have hz : o2 - (plainSum y leap : Int) = 0 := by omega
      rw [ht, hz]
      exact monthLoop_exit (by norm_num)
    · rw [monthResolve_zero_leapstart hl]
      rw [show o2 - (plainSum y leap : Int) = 0 from by omega]
    · omega
  · refine ⟨(leap + 1, true, o2 - plainSum y leap - leapDays y, leapDays y), ?_, ?_, ?_⟩
    · rw [ht, monthLoop_leap_step hl (by omega) (by omega)]
      exact monthLoop_exit (by
        rintro ⟨-, hpos⟩
        omega)
    · rw [monthResolve_neg (by omega)]
      rw [show leap + 1 - 1 = leap from rfl,
        show o2 - (plainSum y leap : Int) - leapDays y + (leapDays y : Int)
          = o2 - plainSum y leap from by ring]
    · intro _
      rfl

/-- Table fact: no year in 1900–2100 has a leap month index above 11. -/
theorem leapMonth_table_le : ∀ n < 201, leapMonth (1900 + n) ≤ 11 := by decide

theorem leapMonth_le (y : Nat) : leapMonth y ≤ 11 := by
  by_cases h : 1900 ≤ y ∧ y ≤ 2100
  · have := leapMonth_table_le (y - 1900) (by omega)
    rw [show 1900 + (y - 1900) = y from by omega] at this
    exact this
  · unfold leapMonth lunarInfoAt
    rw [if_neg h]
    decide

/-- Table fact: the packed total `lYearDays` agrees with the sum of the
slot lengths walked by the month loops. -/
theorem lYearDays_table_slots :
    ∀ n < 201, lYearDays (1900 + n)
      = sumMonthsBefore (1900 + n) (leapMonth (1900 + n)) 12 := by decide

theorem lYearDays_slots {y : Nat} (h1 : 1900 ≤ y) (h2 : y ≤ 2100) :
    lYearDays y = sumMonthsBefore y (leapMonth y) 12 := by
  have := lYearDays_table_slots (y - 1900) (by omega)
  rw [show 1900 + (y - 1900) = y from by omega] at this
  exact this

/-- Table fact: day-count conservation and the 353–385 bounds. -/
theorem lYearDays_table_c4 :
    ∀ n < 201, lYearDays (1900 + n)
        = plainSum (1900 + n) 12 + leapDays (1900 + n)
      ∧ 353 ≤ lYearDays (1900 + n) ∧ lYearDays (1900 + n) ≤ 385 := by decide

theorem cumGMonths_mono {y : Nat} {a b : Nat} (h : a ≤ b) :
    cumGMonths y a ≤ cumGMonths y b := by
  induction b with
  | zero =>
      have ha : a = 0 := by omega
      subst ha
      exact le_rfl
  | succ n ih =>
      rcases Nat.lt_succ_iff_lt_or_eq.mp (Nat.lt_succ_of_le h) with h2 | h2
      · have h3 := ih (by omega)
        rw [show cumGMonths y (n + 1) = cumGMonths y n + gDaysInMonth y (n + 1) from rfl]
        omega
      · subst h2
        exact le_rfl

theorem cumGYears_succ (n : Nat) :
    cumGYears (n + 1) = cumGYears n + gYearDays (1900 + n) := rfl

theorem cumGYears_mono {a b : Nat} (h : a ≤ b) : cumGYears a ≤ cumGYears b := by
  induction b with
  | zero =>
      have ha : a = 0 := by omega
      subst ha
      exact le_rfl
  | succ n ih =>
      rcases Nat.lt_succ_iff_lt_or_eq.mp (Nat.lt_succ_of_le h) with h2 | h2
      · have h3 := ih (by omega)
        rw [cumGYears_succ]
        omega
      · subst h2
        exact le_rfl

/-- A valid date of Gregorian year `y` has its day index inside year `y`. -/
theorem dayNumberN_ub {y m d : Nat} (hv : validG y m d) :
    dayNumberN y m d < cumGYears (y - 1900) + gYearDays y := by
  obtain ⟨hm1, hm2, hd1, hd2⟩ := hv
  have hshift : cumGMonths y m = cumGMonths y (m - 1) + gDaysInMonth y m :=
    cumGMonths_shift hm1
  have hmono : cumGMonths y m ≤ cumGMonths y 12 := cumGMonths_mono hm2
  have h12 : cumGMonths y 12 = gYearDays y := cumGMonths_12 y
  unfold dayNumberN
  omega

/-- Total day counts: the 201 Gregorian years 1900–2100 fit inside theepoch
offset range covered by the 201 lunar years of the table. -/
theorem cumGYears_le_sumLYear : cumGYears 201 ≤ 30 + sumLYear 201 := by decide

/-- Every valid Gregorian date up to 2100-12-31 has its epoch offset below
the total day count of the lunar table. -/
theorem offset_ub {y m d : Nat} (hv : validG y m d) (hy1 : 1900 ≤ y)
    (hy2 : y ≤ 2100) :
    (dayNumberN y m d : Int) - 30 < (sumLYear 201 : Int) := by
  have h1 := dayNumberN_ub hv
  have h2 : cumGYears ((y - 1900) + 1) ≤ cumGYears 201 := cumGYears_mono (by omega)
  rw [cumGYears_succ, show 1900 + (y - 1900) = y from by omega] at h2
  have h3 := cumGYears_le_sumLYear
  omega

theorem cumGYears_one : cumGYears 1 = 365 := by decide

/-- A valid date on or after the epoch 1900-01-31 has day index at least 30. -/
theorem offset_lb {y m d : Nat} (hv : validG y m d) (hy1 : 1900 ≤ y)
    (hne : ¬(y = 1900 ∧ m = 1 ∧ d ≤ 30)) :
    30 ≤ dayNumberN y m d := by
  obtain ⟨hm1, hm2, hd1, hd2⟩ := hv
  unfold dayNumberN
  by_cases hy : y = 1900
  · subst hy
    by_cases hm : m = 1
    · subst hm
      have hd : 31 ≤ d := by omega
      omega
    · have h2 : cumGMonths 1900 1 ≤ cumGMonths 1900 (m - 1) :=
        cumGMonths_mono (by omega)
      rw [show cumGMonths 1900 1 = 31 from by decide] at h2
      omega
  · have h2 : cumGYears 1 ≤ cumGYears (y - 1900) := cumGYears_mono (by omega)
    rw [cumGYears_one] at h2
    omega

/-- The field values of `lunarFromOffset` in terms of the two loops and the
post-loop correction. -/
theorem lunarFromOffset_build {o : Int} {Yr : Nat} {off : Int} {t : Nat}
    {q : Nat × Bool × Int × Nat} {mm : Nat} {il : Bool} {doff : Int}
    (hYL : yearLoop 1900 o 0 = (Yr, off, t))
    (hML : monthLoop (if off < 0 then Yr - 1 else Yr)
        (leapMonth (if off < 0 then Yr - 1 else Yr)) 1 false
        (if off < 0 then off + (t : Int) else off) t = q)
    (hMR : monthResolve (leapMonth (if off < 0 then Yr - 1 else Yr)) q = (mm, il, doff)) :
    (lunarFromOffset o).year = (if off < 0 then Yr - 1 else Yr) ∧
    (lunarFromOffset o).month = mm ∧
    (lunarFromOffset o).isLeap = il ∧
    (lunarFromOffset o).day = doff + 1 ∧
    (lunarFromOffset o).monthDays = q.2.2.2 := by
  unfold lunarFromOffset
  rw [hYL]
  dsimp only
  rw [hML, hMR]
  exact ⟨rfl, rfl, rfl, rfl, rfl⟩

/-- Existence of the landing slot within a lunar year. -/
theorem slot_exists {y leap : Nat} {o2 : Int} (h0 : 0 ≤ o2)
    (hhi : o2 < (sumMonthsBefore y leap 12 : Int)) :
    (∃ m, 1 ≤ m ∧ m ≤ 12 ∧ (sumMonthsBefore y leap (m - 1) : Int) ≤ o2 ∧
      o2 < sumMonthsBefore y leap (m - 1) + monthDays y m)
    ∨ (0 < leap ∧ leap ≤ 12 ∧ (plainSum y leap : Int) ≤ o2 ∧
      o2 < plainSum y leap + leapDays y) := by
  have main : ∀ n, n ≤ 12 → o2 < (sumMonthsBefore y leap n : Int) →
      (∃ m, 1 ≤ m ∧ m ≤ n ∧ (sumMonthsBefore y leap (m - 1) : Int) ≤ o2 ∧
        o2 < sumMonthsBefore y leap (m - 1) + monthDays y m)
      ∨ (0 < leap ∧ leap ≤ n ∧ (plainSum y leap : Int) ≤ o2 ∧
        o2 < plainSum y leap + leapDays y) := by
    intro n
    induction n with
    | zero =>
        intro _ h
        rw [show sumMonthsBefore y leap 0 = 0 from rfl] at h
        norm_num at h
        omega
    | succ k ih =>
        intro hk h
        by_cases hlt : o2 < (sumMonthsBefore y leap k : Int)
        · rcases ih (by omega) hlt with ⟨m, hm1, hm2, hm3, hm4⟩ | ⟨ha, hb, hc, hd⟩
          · exact Or.inl ⟨m, hm1, by omega, hm3, hm4⟩
          · exact Or.inr ⟨ha, by omega, hc, hd⟩
        · push_neg at hlt
          by_cases hmid : o2 < (sumMonthsBefore y leap k : Int) + monthDays y (k + 1)
          · refine Or.inl ⟨k + 1, by omega, by omega, ?_, ?_⟩
            · rw [show (k + 1) - 1 = k from by omega]
              exact hlt
            · rw [show (k + 1) - 1 = k from by omega]
              exact hmid
          · push_neg at hmid
            rw [sumMB_succ] at h
            have hcond : 0 < leap ∧ k + 1 = leap := by
              by_contra hcon
              rw [if_neg hcon] at h
              push_cast at h
              omega
            rw [if_pos hcond] at h
            obtain ⟨hl, hke⟩ := hcond
            have hplain : plainSum y leap = sumMonthsBefore y leap k + monthDays y (k + 1) := by
              have := sumMB_eq_plain y leap k
              rw [show leap = k + 1 from by omega] at this ⊢
              rw [plainSum_succ]
              rw [if_neg (by omega)] at this
              omega
            refine Or.inr ⟨hl, by omega, ?_, ?_⟩
            · rw [hplain]
              push_cast
              omega
            · rw [hplain]
              push_cast at h ⊢
              omega
  have h12 := main 12 le_rfl hhi
  rcases h12 with ⟨m, hm1, hm2, hm3, hm4⟩ | ⟨ha, hb, hc, hd⟩
  · exact Or.inl ⟨m, hm1, hm2, hm3, hm4⟩
  · exact Or.inr ⟨ha, hb, hc, hd⟩

/-- Master characterization of `lunarFromOffset` on the covered offset
range: the result names the lunar year containing the offset, and either an
ordinary-month or a leap-month resolution with exact day position, the day
within the resolved month's length, and the `monthDays` field correct from
day 2 on. -/
theorem lunarFromOffset_spec {o : Int} (h0 : 0 ≤ o)
    (h1 : o < (sumLYear 201 : Int)) :
    ∃ Y : Nat, 1900 ≤ Y ∧ Y ≤ 2100 ∧
      (sumLYear (Y - 1900) : Int) ≤ o ∧
      (lunarFromOffset o).year = Y ∧
      (((lunarFromOffset o).isLeap = false ∧
        1 ≤ (lunarFromOffset o).month ∧ (lunarFromOffset o).month ≤ 12 ∧
        (sumMonthsBefore Y (leapMonth Y) ((lunarFromOffset o).month - 1) : Int)
          ≤ o - sumLYear (Y - 1900) ∧
        (lunarFromOffset o).day = o - sumLYear (Y - 1900)
          - sumMonthsBefore Y (leapMonth Y) ((lunarFromOffset o).month - 1) + 1 ∧
        1 ≤ (lunarFromOffset o).day ∧
        (lunarFromOffset o).day ≤ monthDays Y (lunarFromOffset o).month ∧
        (2 ≤ (lunarFromOffset o).day →
          (lunarFromOffset o).monthDays = monthDays Y (lunarFromOffset o).month))
      ∨ ((lunarFromOffset o).isLeap = true ∧ 0 < leapMonth Y ∧
        (lunarFromOffset o).month = leapMonth Y ∧
        (lunarFromOffset o).day
          = o - sumLYear (Y - 1900) - plainSum Y (leapMonth Y) + 1 ∧
        1 ≤ (lunarFromOffset o).day ∧
        (lunarFromOffset o).day ≤ leapDays Y ∧
        (2 ≤ (lunarFromOffset o).day →
          (lunarFromOffset o).monthDays = leapDays Y))) := by
  obtain ⟨Y, hY1, hY2, hlo, hhi⟩ := year_exists h0 h1
  obtain ⟨Yr, off, t, hYL, hyear, hoff⟩ := yearPhase hY1 hY2 hlo hhi
  have hle : leapMonth Y ≤ 11 := leapMonth_le Y
  have ho2a : 0 ≤ o - (sumLYear (Y - 1900) : Int) := by omega
  have ho2b : o - (sumLYear (Y - 1900) : Int) < (lYearDays Y : Int) := by
    rw [sumLYear_at hY1] at hhi
    push_cast at hhi
    omega
  have hslots : lYearDays Y = sumMonthsBefore Y (leapMonth Y) 12 :=
    lYearDays_slots hY1 hY2
  have ho2c : o - (sumLYear (Y - 1900) : Int)
      < (sumMonthsBefore Y (leapMonth Y) 12 : Int) := by
    rw [← hslots]
    exact ho2b
  rcases slot_exists ho2a ho2c with ⟨m, hm1, hm2, hs3, hs4⟩ | ⟨hl, hl12, hs3, hs4⟩
  · obtain ⟨q, hq1, hq2, hq3⟩ := @monthPhase_ord Y (leapMonth Y) hle
      (fun hlp => leapDays_ge (by omega)) _ _ hm1 hm2 hs3 hs4 t
    have hML : monthLoop (if off < 0 then Yr - 1 else Yr)
        (leapMonth (if off < 0 then Yr - 1 else Yr)) 1 false
        (if off < 0 then off + (t : Int) else off) t = q := by
      rw [hyear, hoff]
      exact hq1
    have hMR : monthResolve (leapMonth (if off < 0 then Yr - 1 else Yr)) q
        = (m, false, o - sumLYear (Y - 1900)
            - sumMonthsBefore Y (leapMonth Y) (m - 1)) := by
      rw [hyear]
      exact hq2
    obtain ⟨hfy, hfm, hfl, hfd, hft⟩ := lunarFromOffset_build hYL hML hMR
    rw [hyear] at hfy
    refine ⟨Y, hY1, hY2, hlo, hfy, Or.inl ?_⟩
    rw [hfm, hfl, hfd]
    have hdm := monthDays_ge Y m
    refine ⟨rfl, hm1, hm2, hs3, by ring, by omega, by push_cast; omega, ?_⟩
    intro h2d
    rw [hft]
    exact hq3 (by omega)
  · obtain ⟨q, hq1, hq2, hq3⟩ := @monthPhase_leap Y (leapMonth Y)
      hle hl _ hs3 hs4 t
    have hML : monthLoop (if off < 0 then Yr - 1 else Yr)
        (leapMonth (if off < 0 then Yr - 1 else Yr)) 1 false
        (if off < 0 then off + (t : Int) else off) t = q := by
      rw [hyear, hoff]
      exact hq1
    have hMR : monthResolve (leapMonth (if off < 0 then Yr - 1 else Yr)) q
        = (leapMonth Y, true, o - sumLYear (Y - 1900) - plainSum Y (leapMonth Y)) := by
      rw [hyear]
      exact hq2
    obtain ⟨hfy, hfm, hfl, hfd, hft⟩ := lunarFromOffset_build hYL hML hMR
    rw [hyear] at hfy
    refine ⟨Y, hY1, hY2, hlo, hfy, Or.inr ?_⟩
    rw [hfm, hfl, hfd]
    have hld := leapDays_ge (y := Y) (by omega)
    refine ⟨rfl, hl, rfl, by ring, by omega, by push_cast; omega, ?_⟩
    intro h2d
    rw [hft]
    exact hq3 (by omega)

theorem solarToLunar_in_range {y m d : Int} (h1 : 1900 ≤ y) (h2 : y ≤ 2100) :
    solarToLunar y m d
      = some (lunarFromOffset ((dayNumberN y.toNat m.toNat d.toNat : Int) - 30)) := by
  unfold solarToLunar
  rw [if_neg (by omega)]

/-- Pre-epoch behaviour of the conversion body: a negative offset leaves
both loops immediately and the corrections produce year 1899, month 0. -/
theorem lunarFromOffset_neg {o : Int} (h : o < 0) :
    (lunarFromOffset o).year = 1899 ∧ (lunarFromOffset o).month = 0 ∧
    (lunarFromOffset o).isLeap = false ∧ (lunarFromOffset o).day = o + 1 := by
  have hYL : yearLoop 1900 o 0 = (1900, o, 0) :=
    yearLoop_exit (by rintro ⟨-, hp⟩; omega)
  have e1 : (if o < 0 then 1900 - 1 else 1900) = 1899 := by
    rw [if_pos h]
  have e2 : (if o < 0 then o + ((0 : Nat) : Int) else o) = o := by
    rw [if_pos h]
    simp
  have hML : monthLoop (if o < 0 then 1900 - 1 else 1900)
      (leapMonth (if o < 0 then 1900 - 1 else 1900)) 1 false
      (if o < 0 then o + ((0 : Nat) : Int) else o) 0 = (1, false, o, 0) := by
    rw [e1, e2]
    exact monthLoop_exit (by rintro ⟨-, hp⟩; omega)
  have hMR : monthResolve (leapMonth (if o < 0 then 1900 - 1 else 1900))
      (1, false, o, 0) = (0, false, o + ((0 : Nat) : Int)) := by
    rw [e1]
    exact monthResolve_neg h
  obtain ⟨hfy, hfm, hfl, hfd, -⟩ := lunarFromOffset_build hYL hML hMR
  rw [e1] at hfy
  refine ⟨hfy, hfm, hfl, ?_⟩
  rw [hfd]
  simp

theorem toN_addDays_epoch (n : Nat) : toN (addDays epoch n) = 30 + n := by
  rw [epoch_eq, ← addDays_add]
  exact (toN_addDays (30 + n)).2

theorem addDays_epoch_inj {a b : Nat}
    (h : addDays epoch a = addDays epoch b) : a = b := by
  have ha := toN_addDays_epoch a
  have hb := toN_addDays_epoch b
  rw [h] at ha
  omega

/-- The value of `getLunarMonthSolarRange` on an in-range lunar year and
month, in terms of the accumulated start offset. -/
theorem range_eq {y m : Nat} (h1 : 1900 ≤ y) (h2 : y ≤ 2100) (hm1 : 1 ≤ m)
    (hm2 : m ≤ 12) :
    getLunarMonthSolarRange (y : Int) (m : Int) = some
      { start := addDays epoch
          (sumLYear (y - 1900) + sumMonthsBefore y (leapMonth y) (m - 1)),
        endDate := addDays epoch
          (sumLYear (y - 1900) + sumMonthsBefore y (leapMonth y) (m - 1)
            + (monthDays y m - 1)),
        days := monthDays y m } := by
  unfold getLunarMonthSolarRange
  rw [if_neg (by push_cast; omega)]
  simp only [Int.toNat_natCast]

theorem sumMB_shift_le {y leap m : Nat} (h : 1 ≤ m) :
    sumMonthsBefore y leap (m - 1) + monthDays y m ≤ sumMonthsBefore y leap m := by
  conv_rhs => rw [show m = (m - 1) + 1 from by omega]
  rw [sumMB_succ, show (m - 1) + 1 = m from by omega]
  split_ifs <;> omega

/-- Concrete evaluation of `getLunarMonthSolarRange`: the two `addDays`
chains from the epoch are resolved through the day-number map rather than
by iterated calendar succession. -/
theorem range_concrete (y m sy sm sd ey em ed ds : Nat) (h1 : 1900 ≤ y)
    (h2 : y ≤ 2100) (hm1 : 1 ≤ m) (hm2 : m ≤ 12) (hs1 : 1900 ≤ sy)
    (hvs : validG sy sm sd) (he1 : 1900 ≤ ey) (hve : validG ey em ed)
    (hns : 30 + (sumLYear (y - 1900) + sumMonthsBefore y (leapMonth y) (m - 1))
      = dayNumberN sy sm sd)
    (hne : 30 + (sumLYear (y - 1900) + sumMonthsBefore y (leapMonth y) (m - 1)
        + (monthDays y m - 1)) = dayNumberN ey em ed)
    (hds : monthDays y m = ds) :
    getLunarMonthSolarRange (y : Int) (m : Int)
      = some ⟨⟨sy, sm, sd⟩, ⟨ey, em, ed⟩, ds⟩ := by
  rw [range_eq h1 h2 hm1 hm2, epoch_eq, ← addDays_add, ← addDays_add, hns, hne,
    addDays_gbase_dayNumber hs1 hvs, addDays_gbase_dayNumber he1 hve, hds]

/-- C3: `solarToLunar` returns the null sentinel exactly when the Gregorian
year is outside [1900, 2100] — in particular at (1899, 12, 1) and
(2101, 1, 1) — and `getLunarMonthSolarRange` returns null exactly when the
lunar year is outside [1900, 2100] or the lunar month outside [1, 12]. -/
theorem c3_out_of_range_null :
    (∀ y m d : Int, solarToLunar y m d = none ↔ (y < 1900 ∨ 2100 < y)) ∧
    solarToLunar 1899 12 1 = none ∧ solarToLunar 2101 1 1 = none ∧
    (∀ ly lm : Int, getLunarMonthSolarRange ly lm = none ↔
      (ly < 1900 ∨ 2100 < ly ∨ lm < 1 ∨ 12 < lm)) := by
  refine ⟨?_, ?_, ?_, ?_⟩
  · intro y m d
    unfold solarToLunar
    split_ifs with h
    · exact iff_of_true rfl h
    · exact iff_of_false (by simp) h
  · unfold solarToLunar
    rw [if_pos (by norm_num)]
  · unfold solarToLunar
    rw [if_pos (by norm_num)]
  · intro ly lm
    unfold getLunarMonthSolarRange
    split_ifs with h
    · exact iff_of_true rfl h
    · exact iff_of_false (by simp) h

/-- C4: for every year in [1900, 2100], `lYearDays` equals the sum of the
12 ordinary month lengths plus the leap month length, and lies in
[353, 385]. -/
theorem c4_day_count_conservation (y : Nat) (h1 : 1900 ≤ y) (h2 : y ≤ 2100) :
    lYearDays y = plainSum y 12 + leapDays y ∧
    353 ≤ lYearDays y ∧ lYearDays y ≤ 385 := by
  have h := lYearDays_table_c4 (y - 1900) (by omega)
  rw [show 1900 + (y - 1900) = y from by omega] at h
  exact h

theorem c4_day_count_conservation_witness :
    1900 ≤ 1984 ∧ 1984 ≤ 2100 ∧
    (lYearDays 1984 = plainSum 1984 12 + leapDays 1984 ∧
      353 ≤ lYearDays 1984 ∧ lYearDays 1984 ≤ 385) :=
  ⟨by norm_num, by norm_num, c4_day_count_conservation 1984 (by norm_num) (by norm_num)⟩

/-- C6: the solar-term resolver returns year `y - 1`, month 12 on February
3 of any year `y`, year `y`, month 1 on February 5, and more generally the
returned year is `y - 1` exactly when the month is 1 or the month is 2 with
day below 4. -/
theorem c6_jieqi_year_boundary (y : Int) :
    ((getCurrentJieQiYearMonth y 2 3).year = y - 1 ∧
      (getCurrentJieQiYearMonth y 2 3).month = 12) ∧
    ((getCurrentJieQiYearMonth y 2 5).year = y ∧
      (getCurrentJieQiYearMonth y 2 5).month = 1) ∧
    (∀ m d : Int, (getCurrentJieQiYearMonth y m d).year = y - 1 ↔
      (m = 1 ∨ (m = 2 ∧ d < 4))) := by
  refine ⟨⟨?_, ?_⟩, ⟨?_, ?_⟩, ?_⟩
  · show (if (2 : Int) = 1 ∨ ((2 : Int) = 2 ∧ (3 : Int) < 4) then y - 1 else y) = y - 1
    norm_num
  · rfl
  · show (if (2 : Int) = 1 ∨ ((2 : Int) = 2 ∧ (5 : Int) < 4) then y - 1 else y) = y
    norm_num
  · rfl
  · intro m d
    show (if m = 1 ∨ (m = 2 ∧ d < 4) then y - 1 else y) = y - 1 ↔ _
    split_ifs with hc
    · exact iff_of_true rfl hc
    · exact iff_of_false (by omega) hc

/-- C7: the epoch 1900-01-31 converts to lunar 1900-01-01, not a leap
month. -/
theorem c7_epoch :
    (solarToLunar 1900 1 31).map (fun r => (r.year, r.month, r.day, r.isLeap))
      = some (1900, 1, 1, false) := by decide

/-- C8: the stem and branch indices `(year-4) % 10` and `(year-4) % 12`
used by `solarToLunar` each advance by one per year and the combined pair
has period exactly 60. -/
theorem c8_sexagenary_cycle (y : Nat) (h : 4 ≤ y) :
    ganIdx (y + 1) = (ganIdx y + 1) % 10 ∧
    zhiIdx (y + 1) = (zhiIdx y + 1) % 12 ∧
    (ganIdx (y + 60), zhiIdx (y + 60)) = (ganIdx y, zhiIdx y) ∧
    (∀ k, 0 < k → k < 60 →
      (ganIdx (y + k), zhiIdx (y + k)) ≠ (ganIdx y, zhiIdx y)) := by
  unfold ganIdx zhiIdx
  refine ⟨by omega, by omega, by rw [Prod.mk.injEq]; constructor <;> omega, ?_⟩
  intro k hk1 hk2 heq
  rw [Prod.mk.injEq] at heq
  obtain ⟨e1, e2⟩ := heq
  interval_cases k <;> omega

theorem c8_sexagenary_cycle_witness :
    4 ≤ 1984 ∧
    (ganIdx (1984 + 1) = (ganIdx 1984 + 1) % 10 ∧
     zhiIdx (1984 + 1) = (zhiIdx 1984 + 1) % 12 ∧
     (ganIdx (1984 + 60), zhiIdx (1984 + 60)) = (ganIdx 1984, zhiIdx 1984) ∧
     (∀ k, 0 < k → k < 60 →
       (ganIdx (1984 + k), zhiIdx (1984 + k)) ≠ (ganIdx 1984, zhiIdx 1984))) :=
  ⟨by norm_num, c8_sexagenary_cycle 1984 (by norm_num)⟩

/-- C9: Gregorian dates of January 1900 before the epoch day 31 pass the
year guard and produce a non-null result with year 1899, month 0, and a
non-positive day equal to the negative epoch offset plus one. -/
theorem c9_pre_epoch (d : Int) (h1 : 1 ≤ d) (h2 : d ≤ 30) :
    (solarToLunar 1900 1 d).map (fun r => (r.year, r.month, r.day))
      = some (1899, 0, d - 30) ∧ d - 30 ≤ 0 := by
  have hsl := solarToLunar_in_range (y := 1900) (m := 1) (d := d)
    (by norm_num) (by norm_num)
  have hoff : (dayNumberN (1900 : Int).toNat (1 : Int).toNat d.toNat : Int) - 30
      = d - 31 := by
    unfold dayNumberN
    rw [show (1900 : Int).toNat = 1900 from rfl, show (1 : Int).toNat = 1 from rfl]
    rw [show cumGYears 0 = 0 from rfl, show cumGMonths 1900 0 = 0 from rfl]
    omega
  rw [hoff] at hsl
  obtain ⟨hy, hm, hl, hd⟩ := lunarFromOffset_neg (o := d - 31) (by omega)
  rw [hsl]
  constructor
  · show some ((lunarFromOffset (d - 31)).year, (lunarFromOffset (d - 31)).month,
      (lunarFromOffset (d - 31)).day) = _
    rw [hy, hm, hd]
    rw [show d - 31 + 1 = d - 30 from by ring]
  · omega

theorem c9_pre_epoch_witness :
    1 ≤ (15 : Int) ∧ (15 : Int) ≤ 30 ∧
    ((solarToLunar 1900 1 15).map (fun r => (r.year, r.month, r.day))
        = some (1899, 0, (15 : Int) - 30) ∧ (15 : Int) - 30 ≤ 0) :=
  ⟨by norm_num, by norm_num, c9_pre_epoch 15 (by norm_num) (by norm_num)⟩

/-- C5: for every Gregorian date with year in [1900, 2100], if the
resolved lunar year has no leap month, the leap flag is false. -/
theorem c5_leap_exclusivity (y m d : Nat) (hv : validG y m d) (h1 : 1900 ≤ y)
    (h2 : y ≤ 2100) (r : LunarResult)
    (hr : solarToLunar (y : Int) (m : Int) (d : Int) = some r)
    (hz : leapMonth r.year = 0) : r.isLeap = false := by
  rw [solarToLunar_in_range (by omega) (by omega)] at hr
  simp only [Int.toNat_natCast] at hr
  have hr2 : r = lunarFromOffset ((dayNumberN y m d : Int) - 30) :=
    (Option.some.inj hr).symm
  by_cases hneg : ((dayNumberN y m d : Int) - 30) < 0
  · obtain ⟨-, -, hfl, -⟩ := lunarFromOffset_neg hneg
    rw [hr2]
    exact hfl
  · push_neg at hneg
    have hub := offset_ub hv h1 h2
    obtain ⟨Y, hY1, hY2, -, hfy, hdisj⟩ := lunarFromOffset_spec hneg hub
    rw [← hr2] at hfy hdisj
    rcases hdisj with ⟨hfl, -⟩ | ⟨-, hpos, -⟩
    · exact hfl
    · rw [hfy] at hz
      omega

def c5r : LunarResult := lunarFromOffset 394

theorem c5_leap_exclusivity_witness :
    validG 1901 3 1 ∧ 1900 ≤ 1901 ∧ 1901 ≤ 2100 ∧
    solarToLunar 1901 3 1 = some c5r ∧ leapMonth c5r.year = 0 ∧
    c5r.isLeap = false :=
  ⟨by decide, by norm_num, by norm_num, by decide, by decide,
    c5_leap_exclusivity 1901 3 1 (by decide) (by norm_num) (by norm_num) c5r
      (by decide) (by decide)⟩

/-- C2 fails as stated at the epoch itself: the returned `monthDays` field
is 0, not the length 29 of the resolved month, and the day 1 is not below
that field. -/
theorem c2_counterexample :
    (solarToLunar 1900 1 31).map
        (fun r => (r.year, r.month, r.isLeap, r.day, r.monthDays))
      = some (1900, 1, false, 1, 0) ∧
    monthDays 1900 1 = 29 ∧ (0 : Nat) ≠ 29 ∧ ¬((1 : Int) ≤ ((0 : Nat) : Int)) :=
  ⟨by decide, by decide, by decide, by decide⟩

/-- C2 (amended): for Gregorian dates from the epoch 1900-01-31 through
2100-12-31, the day field lies in [1, length of the resolved month] (the
leap month's length when the leap flag is set), and the `monthDays` field
equals that length whenever the day field is at least 2 (on first days of a
month it instead holds the previous loop value). -/
theorem c2_day_bounds (y m d : Nat) (hv : validG y m d) (h1 : 1900 ≤ y)
    (h2 : y ≤ 2100) (hep : ¬(y = 1900 ∧ m = 1 ∧ d ≤ 30)) (r : LunarResult)
    (hr : solarToLunar (y : Int) (m : Int) (d : Int) = some r) :
    (1 ≤ r.day ∧
      r.day ≤ (if r.isLeap then leapDays r.year else monthDays r.year r.month)) ∧
    (2 ≤ r.day →
      r.monthDays = (if r.isLeap then leapDays r.year else monthDays r.year r.month)) := by
  rw [solarToLunar_in_range (by omega) (by omega)] at hr
  simp only [Int.toNat_natCast] at hr
  have hr2 : r = lunarFromOffset ((dayNumberN y m d : Int) - 30) :=
    (Option.some.inj hr).symm
  have hlb : (0 : Int) ≤ (dayNumberN y m d : Int) - 30 := by
    have := offset_lb hv h1 hep
    omega
  have hub := offset_ub hv h1 h2
  obtain ⟨Y, hY1, hY2, -, hfy, hdisj⟩ := lunarFromOffset_spec hlb hub
  rw [← hr2] at hfy hdisj
  rcases hdisj with ⟨hfl, -, -, -, -, hd1, hd2, ht⟩ | ⟨hfl, -, -, -, hd1, hd2, ht⟩
  · rw [hfl, hfy]
    norm_num
    exact ⟨⟨hd1, hd2⟩, ht⟩
  · rw [hfl, hfy]
    norm_num
    exact ⟨⟨hd1, hd2⟩, ht⟩

def c2r : LunarResult := lunarFromOffset 824

theorem c2_day_bounds_witness :
    validG 1902 5 5 ∧ 1900 ≤ 1902 ∧ 1902 ≤ 2100 ∧
    ¬(1902 = 1900 ∧ 5 = 1 ∧ 5 ≤ 30) ∧
    solarToLunar 1902 5 5 = some c2r ∧
    ((1 ≤ c2r.day ∧
      c2r.day ≤ (if c2r.isLeap then leapDays c2r.year else monthDays c2r.year c2r.month)) ∧
    (2 ≤ c2r.day →
      c2r.monthDays = (if c2r.isLeap then leapDays c2r.year else monthDays c2r.year c2r.month))) :=
  ⟨by decide, by norm_num, by norm_num, by norm_num, by decide,
    c2_day_bounds 1902 5 5 (by decide) (by norm_num) (by norm_num) (by norm_num)
      c2r (by decide)⟩

/-- C1 fails as stated on leap-month dates: 1903-06-25 resolves to day 1 of
the leap fifth month of 1903, but `getLunarMonthSolarRange(1903, 5)` is the
ordinary fifth month starting 1903-05-27, so stepping `day - 1` days from
its start does not return 1903-06-25. -/
theorem c1_counterexample :
    (solarToLunar 1903 6 25).map (fun r => (r.year, r.month, r.day, r.isLeap))
      = some (1903, 5, 1, true) ∧
    (getLunarMonthSolarRange 1903 5).map (fun rng => rng.start)
      = some ⟨1903, 5, 27⟩ ∧
    addDays ⟨1903, 5, 27⟩ ((1 : Int) - 1).toNat ≠ (⟨1903, 6, 25⟩ : GDate) := by
  refine ⟨by decide, ?_, by decide⟩
  exact congrArg (Option.map fun rng => rng.start)
    (range_concrete 1903 5 1903 5 27 1903 6 24 29 (by norm_num) (by norm_num)
      (by norm_num) (by norm_num) (by norm_num) (by decide) (by norm_num)
      (by decide) (by decide) (by decide) (by decide))

/-- C1 (amended): for every Gregorian date with year in [1901, 2099] whose
conversion does not land in a leap month (`isLeap = false`), stepping
`day - 1` days forward from `getLunarMonthSolarRange(year, month).start`
returns the original date. -/
theorem c1_roundtrip_nonleap (y m d : Nat) (hv : validG y m d) (hy1 : 1901 ≤ y)
    (hy2 : y ≤ 2099) (r : LunarResult)
    (hr : solarToLunar (y : Int) (m : Int) (d : Int) = some r)
    (hnl : r.isLeap = false) (rng : SolarRange)
    (hrng : getLunarMonthSolarRange (r.year : Int) (r.month : Int) = some rng) :
    addDays rng.start (r.day - 1).toNat = ⟨y, m, d⟩ := by
  rw [solarToLunar_in_range (by omega) (by omega)] at hr
  simp only [Int.toNat_natCast] at hr
  have hr2 : r = lunarFromOffset ((dayNumberN y m d : Int) - 30) :=
    (Option.some.inj hr).symm
  have hlb : (0 : Int) ≤ (dayNumberN y m d : Int) - 30 := by
    have := offset_lb hv (by omega) (by omega)
    omega
  have hub := offset_ub hv (by omega) (by omega)
  obtain ⟨Y, hY1, hY2, hYlo, hfy, hdisj⟩ := lunarFromOffset_spec hlb hub
  rw [← hr2] at hfy hdisj
  rcases hdisj with ⟨-, hm1, hm2, hPle, hday, hd1, -, -⟩ | ⟨htrue, -⟩
  swap
  · rw [hnl] at htrue
    exact absurd htrue (by simp)
  rw [hfy] at hrng
  rw [range_eq hY1 hY2 hm1 hm2] at hrng
  have hstart : rng.start = addDays epoch
      (sumLYear (Y - 1900) + sumMonthsBefore Y (leapMonth Y) (r.month - 1)) := by
    have h := Option.some.inj hrng
    rw [← h]
  have hkey : 30 + (sumLYear (Y - 1900)
      + sumMonthsBefore Y (leapMonth Y) (r.month - 1) + (r.day - 1).toNat)
      = dayNumberN y m d := by
    omega
  rw [hstart, ← addDays_add, epoch_eq, ← addDays_add, hkey]
  exact addDays_gbase_dayNumber (by omega) hv

def c1r : LunarResult := lunarFromOffset 335

def c1rng : SolarRange := ⟨⟨1900, 12, 22⟩, ⟨1901, 1, 19⟩, 29⟩

theorem c1rng_eq :
    getLunarMonthSolarRange (c1r.year : Int) (c1r.month : Int) = some c1rng :=
  range_concrete 1900 11 1900 12 22 1901 1 19 29 (by norm_num) (by norm_num)
    (by norm_num) (by norm_num) (by norm_num) (by decide) (by norm_num)
    (by decide) (by decide) (by decide) (by decide)

theorem c1_roundtrip_nonleap_witness :
    validG 1901 1 1 ∧ 1901 ≤ 1901 ∧ 1901 ≤ 2099 ∧
    solarToLunar 1901 1 1 = some c1r ∧ c1r.isLeap = false ∧
    getLunarMonthSolarRange c1r.year c1r.month = some c1rng ∧
    addDays c1rng.start (c1r.day - 1).toNat = ⟨1901, 1, 1⟩ :=
  ⟨by decide, by norm_num, by norm_num, by decide, by decide, c1rng_eq,
    c1_roundtrip_nonleap 1901 1 1 (by decide) (by norm_num) (by norm_num) c1r
      (by decide) (by decide) c1rng c1rng_eq⟩

/-- Interval ordering: every ordinary-month range either ends before the
leap gap of year `y` or starts after it. -/
theorem gap_cases {y : Nat} (h2 : y ≤ 2100)
    (hl : 0 < leapMonth y)
    {y2 m2 : Nat} (hy1 : 1900 ≤ y2) (hy2 : y2 ≤ 2100) (hm1 : 1 ≤ m2)
    (hm2 : m2 ≤ 12) (hyy : 1900 ≤ y) :
    sumLYear (y2 - 1900) + sumMonthsBefore y2 (leapMonth y2) (m2 - 1)
        + monthDays y2 m2
      ≤ sumLYear (y - 1900) + plainSum y (leapMonth y)
    ∨ sumLYear (y - 1900) + plainSum y (leapMonth y) + leapDays y
      ≤ sumLYear (y2 - 1900) + sumMonthsBefore y2 (leapMonth y2) (m2 - 1) := by
  have hldpos : 29 ≤ leapDays y := leapDays_ge (by omega)
  have hLle : leapMonth y ≤ 11 := leapMonth_le y
  have hSy : sumMonthsBefore y (leapMonth y) (leapMonth y)
      = plainSum y (leapMonth y) + leapDays y := by
    rw [sumMB_eq_plain, if_pos ⟨hl, le_rfl⟩]
  rcases Nat.lt_trichotomy y2 y with hlt | heq | hgt
  · left
    have s1 : sumMonthsBefore y2 (leapMonth y2) (m2 - 1) + monthDays y2 m2
        ≤ sumMonthsBefore y2 (leapMonth y2) m2 := sumMB_shift_le hm1
    have s2 : sumMonthsBefore y2 (leapMonth y2) m2
        ≤ sumMonthsBefore y2 (leapMonth y2) 12 := sumMB_mono hm2
    have s3 : sumMonthsBefore y2 (leapMonth y2) 12 = lYearDays y2 :=
      (lYearDays_slots hy1 hy2).symm
    have s4 : sumLYear (y2 - 1900) + lYearDays y2 = sumLYear (y2 - 1900 + 1) :=
      (sumLYear_at hy1).symm
    have s5 : sumLYear (y2 - 1900 + 1) ≤ sumLYear (y - 1900) :=
      sumLYear_mono (by omega)
    omega
  · obtain rfl := heq.symm
    by_cases hmL : m2 ≤ leapMonth y
    · left
      have s1 : sumMonthsBefore y (leapMonth y) (m2 - 1) = plainSum y (m2 - 1) := by
        rw [sumMB_eq_plain, if_neg (by omega)]
        omega
      have s2 : plainSum y (m2 - 1) + monthDays y m2 = plainSum y m2 :=
        (plainSum_shift hm1).symm
      have s3 : plainSum y m2 ≤ plainSum y (leapMonth y) := plainSum_mono hmL
      omega
    · right
      have s1 : sumMonthsBefore y (leapMonth y) (leapMonth y)
          ≤ sumMonthsBefore y (leapMonth y) (m2 - 1) := sumMB_mono (by omega)
      omega
  · right
    have s1 : sumLYear (y - 1900 + 1) ≤ sumLYear (y2 - 1900) :=
      sumLYear_mono (by omega)
    have s2 : sumLYear (y - 1900 + 1) = sumLYear (y - 1900) + lYearDays y :=
      sumLYear_at hyy
    have s3 : lYearDays y = sumMonthsBefore y (leapMonth y) 12 :=
      lYearDays_slots hyy h2
    have s4 : sumMonthsBefore y (leapMonth y) (leapMonth y)
        ≤ sumMonthsBefore y (leapMonth y) 12 := sumMB_mono (by omega)
    omega

/-- C10: `getLunarMonthSolarRange` never returns the leap month's span: for
a lunar year `y` with leap month `L < 12`, month `L+1`'s range starts
exactly `monthDays(y,L) + leapDays(y)` days after month `L`'s range, the
`leapDays(y)` Gregorian days of the leap month lie strictly between the end
of month `L`'s range and the start of month `L+1`'s range, and none of
them is contained in the range returned for any `(year, month)` argument. -/
theorem c10_leap_gap (y : Nat) (h1 : 1900 ≤ y) (h2 : y ≤ 2100)
    (hl : 0 < leapMonth y) (hl12 : leapMonth y < 12)
    (rng1 rng2 : SolarRange)
    (hr1 : getLunarMonthSolarRange (y : Int) (leapMonth y : Int) = some rng1)
    (hr2 : getLunarMonthSolarRange (y : Int) ((leapMonth y + 1 : Nat) : Int) = some rng2) :
    rng2.start = addDays rng1.start (monthDays y (leapMonth y) + leapDays y) ∧
    (∀ j, j < leapDays y →
      toN rng1.endDate
        < toN (addDays rng1.start (monthDays y (leapMonth y) + j)) ∧
      toN (addDays rng1.start (monthDays y (leapMonth y) + j)) < toN rng2.start ∧
      (∀ ly lm : Int, ∀ rng : SolarRange,
        getLunarMonthSolarRange ly lm = some rng →
        ∀ k, k < rng.days →
          addDays rng.start k
            ≠ addDays rng1.start (monthDays y (leapMonth y) + j))) := by
  have hLle : leapMonth y ≤ 11 := leapMonth_le y
  rw [range_eq h1 h2 (by omega) (by omega)] at hr1
  rw [range_eq h1 h2 (by omega) (by omega)] at hr2
  have e1 := Option.some.inj hr1
  have e2 := Option.some.inj hr2
  have hS1 : sumMonthsBefore y (leapMonth y) (leapMonth y - 1)
      = plainSum y (leapMonth y - 1) := by
    rw [sumMB_eq_plain, if_neg (by omega)]
    omega
  have hSy : sumMonthsBefore y (leapMonth y) ((leapMonth y + 1) - 1)
      = plainSum y (leapMonth y) + leapDays y := by
    rw [show (leapMonth y + 1) - 1 = leapMonth y from rfl]
    rw [sumMB_eq_plain, if_pos ⟨hl, le_rfl⟩]
  have hplain : plainSum y (leapMonth y)
      = plainSum y (leapMonth y - 1) + monthDays y (leapMonth y) :=
    plainSum_shift (by omega)
  have hstart1 : rng1.start = addDays epoch
      (sumLYear (y - 1900) + plainSum y (leapMonth y - 1)) := by
    rw [← e1, hS1]
  have hend1 : rng1.endDate = addDays epoch
      (sumLYear (y - 1900) + plainSum y (leapMonth y - 1)
        + (monthDays y (leapMonth y) - 1)) := by
    rw [← e1, hS1]
  have hstart2 : rng2.start = addDays epoch
      (sumLYear (y - 1900) + (plainSum y (leapMonth y) + leapDays y)) := by
    rw [← e2, hSy]
  have hdm : 29 ≤ monthDays y (leapMonth y) := monthDays_ge y (leapMonth y)
  constructor
  · rw [hstart1, hstart2, ← addDays_add]
    exact congrArg (addDays epoch) (by omega)
  · intro j hj
    have hDj : addDays rng1.start (monthDays y (leapMonth y) + j)
        = addDays epoch (sumLYear (y - 1900) + plainSum y (leapMonth y - 1)
          + (monthDays y (leapMonth y) + j)) := by
      rw [hstart1, ← addDays_add]
    refine ⟨?_, ?_, ?_⟩
    · rw [hend1, hDj, toN_addDays_epoch, toN_addDays_epoch]
      omega
    · rw [hstart2, hDj, toN_addDays_epoch, toN_addDays_epoch]
      omega
    · intro ly lm rng hrng k hk heq
      have hbounds : 1900 ≤ ly ∧ ly ≤ 2100 ∧ 1 ≤ lm ∧ lm ≤ 12 := by
        by_contra hc
        unfold getLunarMonthSolarRange at hrng
        rw [if_pos (by omega)] at hrng
        exact Option.noConfusion hrng
      obtain ⟨hb1, hb2, hb3, hb4⟩ := hbounds
      rw [show ly = ((ly.toNat : Nat) : Int) from by omega,
        show lm = ((lm.toNat : Nat) : Int) from by omega] at hrng
      rw [range_eq (by omega) (by omega) (by omega) (by omega)] at hrng
      have e3 := Option.some.inj hrng
      have hstart3 : rng.start = addDays epoch
          (sumLYear (ly.toNat - 1900)
            + sumMonthsBefore ly.toNat (leapMonth ly.toNat) (lm.toNat - 1)) := by
        rw [← e3]
      have hdays3 : rng.days = monthDays ly.toNat lm.toNat := by
        rw [← e3]
      rw [hstart3, ← addDays_add, hDj] at heq
      have heqn := addDays_epoch_inj heq
      rw [hdays3] at hk
      have hcases := @gap_cases y h2 hl ly.toNat lm.toNat
        (by omega) (by omega) (by omega) (by omega) h1
      omega

def c10rng1 : SolarRange := ⟨⟨1900, 8, 25⟩, ⟨1900, 9, 23⟩, 30⟩

def c10rng2 : SolarRange := ⟨⟨1900, 10, 23⟩, ⟨1900, 11, 21⟩, 30⟩

theorem c10rng1_eq :
    getLunarMonthSolarRange 1900 (leapMonth 1900 : Int) = some c10rng1 :=
  range_concrete 1900 8 1900 8 25 1900 9 23 30 (by norm_num) (by norm_num)
    (by norm_num) (by norm_num) (by norm_num) (by decide) (by norm_num)
    (by decide) (by decide) (by decide) (by decide)

theorem c10rng2_eq :
    getLunarMonthSolarRange 1900 ((leapMonth 1900 + 1 : Nat) : Int)
      = some c10rng2 :=
  range_concrete 1900 9 1900 10 23 1900 11 21 30 (by norm_num) (by norm_num)
    (by norm_num) (by norm_num) (by norm_num) (by decide) (by norm_num)
    (by decide) (by decide) (by decide) (by decide)

theorem c10_leap_gap_witness :
    1900 ≤ 1900 ∧ 1900 ≤ 2100 ∧ 0 < leapMonth 1900 ∧ leapMonth 1900 < 12 ∧
    getLunarMonthSolarRange 1900 (leapMonth 1900 : Int) = some c10rng1 ∧
    getLunarMonthSolarRange 1900 ((leapMonth 1900 + 1 : Nat) : Int) = some c10rng2 ∧
    (c10rng2.start
        = addDays c10rng1.start (monthDays 1900 (leapMonth 1900) + leapDays 1900) ∧
      (∀ j, j < leapDays 1900 →
        toN c10rng1.endDate
          < toN (addDays c10rng1.start (monthDays 1900 (leapMonth 1900) + j)) ∧
        toN (addDays c10rng1.start (monthDays 1900 (leapMonth 1900) + j))
          < toN c10rng2.start ∧
        (∀ ly lm : Int, ∀ rng : SolarRange,
          getLunarMonthSolarRange ly lm = some rng →
          ∀ k, k < rng.days →
            addDays rng.start k
              ≠ addDays c10rng1.start (monthDays 1900 (leapMonth 1900) + j)))) :=
  ⟨by norm_num, by norm_num, by decide, by decide, c10rng1_eq, c10rng2_eq,
    c10_leap_gap 1900 (by norm_num) (by norm_num) (by decide) (by decide)
      c10rng1 c10rng2 c10rng1_eq c10rng2_eq⟩

end Lunar
